import Mathlib

/-!
Verification of the conference-minds extraction and retrieval pipeline
(`src/core.py`).  The Python source is shallowly embedded: strings are
Lean `String`s handled at the `List Char` level, Python floats are
modelled as exact rationals (`ℚ`), the `re` patterns used by the code
are translated to explicit character scans, and the on-disk store is a
typed map from slugs to directory records (the JSON encode/decode pair
used by the code is a faithful bijection on the records it stores, so
files hold the typed values directly).
-/

set_option maxRecDepth 4000

-- ── Character classes (ASCII model of Python's str / re semantics) ──

def isPySpace (c : Char) : Bool :=
  c = ' ' || c = '\t' || c = '\n' || c = '\x0d' || c = '\x0b' || c = '\x0c'

def isDigitCh (c : Char) : Bool := '0' ≤ c && c ≤ '9'

def isUpperCh (c : Char) : Bool := 'A' ≤ c && c ≤ 'Z'

def isLowerCh (c : Char) : Bool := 'a' ≤ c && c ≤ 'z'

def isAlphaCh (c : Char) : Bool := isUpperCh c || isLowerCh c

def isWordCh (c : Char) : Bool := isAlphaCh c || isDigitCh c || c = '_'

def lowerCh (c : Char) : Char :=
  if isUpperCh c then Char.ofNat (c.toNat + 32) else c

def upperCh (c : Char) : Char :=
  if isLowerCh c then Char.ofNat (c.toNat - 32) else c

def lowerStr (s : String) : String := ⟨s.data.map lowerCh⟩

-- ── Python `str.strip` and friends ──

def pyStripL (cs : List Char) : List Char :=
  ((cs.dropWhile isPySpace).reverse.dropWhile isPySpace).reverse

def pyStrip (s : String) : String := ⟨pyStripL s.data⟩

def stripCharsL (p : Char → Bool) (cs : List Char) : List Char :=
  ((cs.dropWhile p).reverse.dropWhile p).reverse

/-- Python `s.strip('.,;:')`. -/
def stripPunct (s : String) : String :=
  ⟨stripCharsL (fun c => c = '.' || c = ',' || c = ';' || c = ':') s.data⟩

/-- Python `s.strip('-')`. -/
def stripHyphen (s : String) : String :=
  ⟨stripCharsL (fun c => c = '-') s.data⟩

-- ── Line splitting and joining (Python `split('\n')`, `'\n'.join`) ──

def splitNL (s : String) : List String :=
  (s.data.splitOn '\n').map (fun cs => ⟨cs⟩)

def joinNL (ls : List String) : String :=
  ⟨['\n'].intercalate (ls.map String.data)⟩

def joinSp (ls : List String) : String := ⟨[' '].intercalate (ls.map String.data)⟩

-- ── Substring containment and counting (Python `in`, `str.count`) ──

/-- `headMatch pat cs`: `cs` begins with `pat`. -/
def headMatch : List Char → List Char → Bool
  | [], _ => true
  | _ :: _, [] => false
  | p :: ps, c :: cs => p = c && headMatch ps cs

def containsSubL (pat : List Char) : List Char → Bool
  | [] => headMatch pat []
  | c :: cs => headMatch pat (c :: cs) || containsSubL pat cs

/-- Python `pat in s`. -/
def containsSub (s pat : String) : Bool := containsSubL pat.data s.data

/-- Non-overlapping left-to-right occurrence count for a nonempty
pattern: `skip > 0` while inside an occurrence already counted. -/
def pyCountGo (pat : List Char) : List Char → Nat → Nat
  | [], _ => 0
  | c :: cs, skip =>
    if 0 < skip then pyCountGo pat cs (skip - 1)
    else if headMatch pat (c :: cs) then 1 + pyCountGo pat cs (pat.length - 1)
    else pyCountGo pat cs 0

/-- Python `s.count(pat)`. -/
def pyCountStr (s pat : String) : Nat :=
  match pat.data with
  | [] => s.data.length + 1
  | p :: ps => pyCountGo (p :: ps) s.data 0

-- ── Python `str.split()` (whitespace words) ──

def pyWords (s : String) : List String :=
  ((s.data.splitOnP isPySpace).filter (· ≠ [])).map (fun cs => ⟨cs⟩)

-- ── `re.split(r'[.!?]+', ...)`: split on runs of sentence enders ──

def isSentEnd (c : Char) : Bool := c = '.' || c = '!' || c = '?'

def splitRunsL (p : Char → Bool) : List Char → List (List Char)
  | [] => [[]]
  | c :: cs =>
    if p c then
      (match cs with
       | d :: _ => if p d then splitRunsL p cs else [] :: splitRunsL p cs
       | [] => [] :: splitRunsL p cs)
    else
      match splitRunsL p cs with
      | a :: rest => (c :: a) :: rest
      | [] => [[c]]

def splitSentences (s : String) : List String :=
  (splitRunsL isSentEnd s.data).map (fun cs => ⟨cs⟩)

-- ── `re.findall(r'\b[a-z]{n,}\b', ...)` on lower-cased text ──

/-- Maximal runs of word characters. -/
def wordRunsL (cs : List Char) : List (List Char) :=
  (cs.splitOnP (fun c => !isWordCh c)).filter (· ≠ [])

/-- Tokens: maximal word-char runs made of `a`–`z` only, length ≥ n.
With `\b` on both sides, `[a-z]{n,}` matches exactly these runs. -/
def tokensMin (n : Nat) (s : String) : List String :=
  ((wordRunsL s.data).filter (fun r => r.all isLowerCh && n ≤ r.length)).map
    (fun cs => ⟨cs⟩)

-- ── `collections.Counter` (insertion-ordered) and `most_common(n)` ──

def bumpCount (acc : List (String × Nat)) (w : String) : List (String × Nat) :=
  if acc.any (fun p => p.1 = w) then
    acc.map (fun p => if p.1 = w then (p.1, p.2 + 1) else p)
  else acc ++ [(w, 1)]

def countOcc (ws : List String) : List (String × Nat) := ws.foldl bumpCount []

/-- Stable insertion: `a` is placed before the first `b` with `r a b`. -/
def insertBefore (r : α → α → Bool) (a : α) : List α → List α
  | [] => [a]
  | b :: l => if r a b then a :: b :: l else b :: insertBefore r a l

/-- Stable sort; with `r a b := key b ≤ key a` this is Python's
`sort(key=…, reverse=True)`, with `r a b := key a ≤ key b` Python's
ascending `sorted`. -/
def stableSortBy (r : α → α → Bool) : List α → List α
  | [] => []
  | a :: l => insertBefore r a (stableSortBy r l)

/-- `Counter.most_common(n)`: stable sort by count descending over the
insertion-ordered items, then take `n`. -/
def mostCommon (n : Nat) (counts : List (String × Nat)) : List (String × Nat) :=
  (stableSortBy (fun a b => b.2 ≤ a.2) counts).take n

-- ── Rational rounding (Python `round(x, 1)`, `format(x, '.0f')`) ──

/-- Round half to even, to an integer. -/
def roundHalfEven (q : ℚ) : Int :=
  let f := ⌊q⌋
  let r := q - (f : ℚ)
  if (1 : ℚ)/2 < r then f + 1
  else if r < (1 : ℚ)/2 then f
  else if f % 2 = 0 then f else f + 1

/-- Python `round(x, 1)` modelled on exact rationals. -/
def roundPy1 (q : ℚ) : ℚ := (roundHalfEven (q * 10) : ℚ) / 10

/-- Render a nonnegative multiple of 1/10 the way Python renders the
corresponding float (`"12.0"`, `"6.5"`). -/
def showTenths (q : ℚ) : String :=
  let n := (q * 10).floor.toNat
  toString (n / 10) ++ "." ++ toString (n % 10)

/-- Python `f"{q:.0%}"`. -/
def showPercent (q : ℚ) : String :=
  toString (roundHalfEven (q * 100)).toNat ++ "%"

-- ── Data model (`src/core.py`, dataclasses) ──

structure Passage where
  speaker : String
  text : String
  position : Nat
  timestamp : String := ""
  topics : List String := []
deriving Repr, DecidableEq

structure Voice where
  sentence_structure : String
  vocabulary_register : String
  question_frequency : String
  avg_sentence_length : ℚ
deriving Repr, DecidableEq

/-- The `soul` dict of a `Speaker`: `{}` when untouched, the profile
dict built by `generate_soul`, or the `{'raw': …}` dict built by
`load_mind`. -/
inductive Soul where
  | empty : Soul
  | profile (name : String) (voice : Voice) (signature_phrases : List String)
      (passage_count : Nat) (word_count : Nat) : Soul
  | raw (content : String) : Soul
deriving Repr, DecidableEq

structure Skill where
  domain : String
  strength : String
  hit_count : Nat
deriving Repr, DecidableEq

structure Speaker where
  name : String
  role : String := ""
  affiliation : String := ""
  passages : List Passage := []
  soul : Soul := .empty
  skills : List Skill := []
  claims : List String := []
  signature_phrases : List String := []
deriving Repr, DecidableEq

structure Theme where
  theme : String
  frequency : Nat
deriving Repr, DecidableEq

structure Tension where
  speakers : List String
  contrast_signals : Nat
  note : String
deriving Repr, DecidableEq

structure ConferenceMind where
  name : String
  created : String := ""
  source_file : String := ""
  speakers : List Speaker := []
  themes : List Theme := []
  tensions : List Tension := []
  raw_transcript : String := ""
  clean_transcript : String := ""
deriving Repr, DecidableEq

-- ── `slugify` ──

/-- Replace each maximal run of `p`-chars by the single char `r`
(`re.sub(r'[\s_]+', '-', …)`). -/
def collapseRuns (p : Char → Bool) (r : Char) : List Char → List Char
  | [] => []
  | c :: cs =>
    if p c then
      (match cs with
       | d :: _ => if p d then collapseRuns p r cs else r :: collapseRuns p r cs
       | [] => [r])
    else c :: collapseRuns p r cs

def slugify (text : String) : String :=
  let s1 := (lowerStr text).data.filter (fun c => isWordCh c || isPySpace c || c = '-')
  let s2 := collapseRuns (fun c => isPySpace c || c = '_') '-' s1
  stripHyphen ⟨s2⟩

-- ── Layer 1: format detection ──

/-- `re.match(r'^\d+$', s)`: nonempty and all digits (the lines tested
are already stripped, so the pre-final-newline subtlety of `$` is moot). -/
def reAllDigits (s : String) : Bool := !s.data.isEmpty && s.data.all isDigitCh

/-- `re.match(r'^\d{1,2}:\d{2}', s)`. -/
def hasClock12 (s : String) : Bool :=
  match s.data with
  | d1 :: ':' :: a :: b :: _ => isDigitCh d1 && isDigitCh a && isDigitCh b
  | d1 :: d2 :: ':' :: a :: b :: _ =>
      isDigitCh d1 && isDigitCh d2 && isDigitCh a && isDigitCh b
  | _ => false

/-- `re.match(r'^\d{2}:\d{2}', s)`. -/
def hasClock22 (s : String) : Bool :=
  match s.data with
  | a :: b :: ':' :: c :: d :: _ =>
      isDigitCh a && isDigitCh b && isDigitCh c && isDigitCh d
  | _ => false

/-- Char class of `detect_format`'s label pattern `[a-zA-Z\s\.]`. -/
def isLabelCh1 (c : Char) : Bool := isAlphaCh c || isPySpace c || c = '.'

/-- `re.match(r'^[A-Z][a-zA-Z\s\.]+:', s)`: since `:` is outside the
class, the greedy `+` matches exactly the maximal class run, which must
be nonempty and followed by `:`. -/
def detectLabel (s : String) : Bool :=
  match s.data with
  | [] => false
  | c :: cs =>
    isUpperCh c && !(cs.takeWhile isLabelCh1).isEmpty &&
      (cs.dropWhile isLabelCh1).head? = some ':'

def detect_format (text : String) : String :=
  let lines := (splitNL (pyStrip text)).take 20
  if ((lines.take 5).any fun l => reAllDigits (pyStrip l)) &&
     ((lines.take 10).any fun l => containsSub l "-->") then "srt"
  else if (match lines with
           | [] => false
           | l :: _ => headMatch "WEBVTT".data (pyStrip l).data) then "vtt"
  else if (lines.take 10).any (fun l => hasClock12 (pyStrip l)) then "youtube"
  else if 3 ≤ lines.countP (fun l => detectLabel (pyStrip l)) then "labeled"
  else "raw"

-- ── Layer 1: normalizers ──

def srtDrop (s : String) : Bool := reAllDigits s || containsSub s "-->"

/-- Shared loop body of `_clean_srt` / `_clean_vtt` / `_clean_raw`:
strip the line, drop it when a format-specific condition or blankness
says so, keep the stripped line otherwise. -/
def keepLine (drop : String → Bool) (l : String) : Option String :=
  let s := pyStrip l
  if drop s then none else if s ≠ "" then some s else none

def cleanFilterL (drop : String → Bool) (text : String) : String :=
  joinNL ((splitNL (pyStrip text)).filterMap (keepLine drop))

def cleanSrt (text : String) : String := cleanFilterL srtDrop text

def vttDrop (s : String) : Bool :=
  headMatch "WEBVTT".data s.data || headMatch "NOTE".data s.data ||
    containsSub s "-->" || hasClock22 s

def cleanVtt (text : String) : String := cleanFilterL vttDrop text

def cleanRaw (text : String) : String := cleanFilterL (fun _ => false) text

/-- `re.sub(r'^\d{1,2}:\d{2}(:\d{2})?\s*', '', line)`: strip a leading
clock prefix (greedy: two digits preferred, optional seconds, then
trailing whitespace). -/
def stripClock (cs : List Char) : List Char :=
  match cs with
  | d1 :: ':' :: a :: b :: rest =>
    if isDigitCh d1 && isDigitCh a && isDigitCh b then
      stripClockTail rest
    else cs
  | d1 :: d2 :: ':' :: a :: b :: rest =>
    if isDigitCh d1 && isDigitCh d2 && isDigitCh a && isDigitCh b then
      stripClockTail rest
    else cs
  | _ => cs
where
  /-- After `\d{1,2}:\d{2}`: the optional `(:\d{2})?` then `\s*`. -/
  stripClockTail (rest : List Char) : List Char :=
    match rest with
    | ':' :: x :: y :: tl =>
      if isDigitCh x && isDigitCh y then tl.dropWhile isPySpace
      else rest.dropWhile isPySpace
    | _ => rest.dropWhile isPySpace

def cleanYoutube (text : String) : String :=
  joinNL ((splitNL (pyStrip text)).filterMap fun l =>
    let s : String := ⟨stripClock (pyStrip l).data⟩
    if s ≠ "" then some s else none)

def clean_transcript (text fmt : String) : String :=
  if fmt = "srt" then cleanSrt text
  else if fmt = "vtt" then cleanVtt text
  else if fmt = "youtube" then cleanYoutube text
  else cleanRaw text

-- ── Layer 2: speaker segmentation ──

/-- Char class of the segmenter's label pattern `[a-zA-Z\s\.\']`. -/
def isLabelCh2 (c : Char) : Bool :=
  isAlphaCh c || isPySpace c || c = '.' || c = '\''

structure LabelGroups where
  speaker : String
  rest : String
deriving Repr, DecidableEq

/-- `re.match(r'^([A-Z][a-zA-Z\s\.\']+?):\s*(.*)', line)`: the lazy
`+?` stops at the first `:`, and since `:` is outside the class this is
the maximal class run; group 2 is the remainder after `\s*`. -/
def speakerMatch (line : String) : Option LabelGroups :=
  match line.data with
  | [] => none
  | c :: cs =>
    if isUpperCh c then
      match cs.takeWhile isLabelCh2, cs.dropWhile isLabelCh2 with
      | r :: rs, ':' :: tl =>
          some ⟨⟨c :: r :: rs⟩, ⟨tl.dropWhile isPySpace⟩⟩
      | _, _ => none
    else none

abbrev PassDict := List (String × List Passage)

def addPassage (d : PassDict) (name text : String) (pos : Nat) : PassDict :=
  if d.any (fun p => p.1 = name) then
    d.map fun p =>
      if p.1 = name then (p.1, p.2 ++ [⟨name, text, pos, "", []⟩]) else p
  else d ++ [(name, [⟨name, text, pos, "", []⟩])]

def extractLoop (lines : List String) (sp : String) (buf : List String)
    (pos : Nat) (d : PassDict) : PassDict :=
  match lines with
  | [] => if buf ≠ [] then addPassage d sp (joinSp buf) pos else d
  | l :: ls =>
    match speakerMatch (pyStrip l) with
    | some m =>
      let d' := if buf ≠ [] then addPassage d sp (joinSp buf) pos else d
      let pos' := if buf ≠ [] then pos + 1 else pos
      let rem := pyStrip m.rest
      extractLoop ls (pyStrip m.speaker) (if rem ≠ "" then [rem] else []) pos' d'
    | none =>
      if pyStrip l ≠ "" then extractLoop ls sp (buf ++ [pyStrip l]) pos d
      else extractLoop ls sp buf pos d

def extract_speakers (clean_text : String) : List Speaker :=
  (extractLoop (splitNL clean_text) "Unknown" [] 0 []).map fun p =>
    { name := p.1, passages := p.2 }

-- ── Layer 2: soul profile ──

def tech_terms : List String :=
  ["algorithm", "infrastructure", "protocol", "API", "model",
   "architecture", "deploy", "inference", "latency", "compute",
   "runtime", "framework", "pipeline", "endpoint", "cluster",
   "GPU", "token", "vector", "embedding", "fine-tune"]

/-- The profile dict computed by `generate_soul` (before the mutation
`speaker.soul = soul`). -/
def generate_soul (sp : Speaker) : Soul :=
  let all_text := joinSp (sp.passages.map (·.text))
  let words := pyWords all_text
  let word_count := words.length
  let sentences := splitSentences all_text
  let avg_sentence_len : ℚ :=
    (((sentences.filter fun s => pyStrip s ≠ "").map
        fun s => (pyWords s).length).sum : ℚ) / (max sentences.length 1 : ℚ)
  let sentStruct :=
    if avg_sentence_len < 12 then "concise, direct"
    else if avg_sentence_len < 20 then "balanced, measured"
    else "complex, expansive"
  let question_count := all_text.data.countP (· = '?')
  let questionShare : ℚ := (question_count : ℚ) / (max sentences.length 1 : ℚ)
  let tech_count := words.countP fun w =>
    (tech_terms.map lowerStr).contains (lowerStr (stripPunct w))
  let tech_density : ℚ := (tech_count : ℚ) / (max word_count 1 : ℚ)
  let register :=
    if 3/100 < tech_density then "highly technical"
    else if 1/100 < tech_density then "technical-accessible blend"
    else "accessible, general audience"
  let bigrams := (words.zip words.tail).map fun ab =>
    lowerStr (ab.1 ++ " " ++ ab.2)
  let bigram_counts := countOcc bigrams
  let signature := ((mostCommon 10 bigram_counts).filter fun pc =>
      3 ≤ pc.2 && 5 < pc.1.length).map (·.1)
  .profile sp.name
    ⟨sentStruct, register,
     (if 3/20 < questionShare then "high"
      else if 1/20 < questionShare then "moderate" else "low"),
     roundPy1 avg_sentence_len⟩
    (signature.take 5) sp.passages.length word_count

def applySoul (sp : Speaker) : Speaker := { sp with soul := generate_soul sp }

-- ── Layer 2: skills ──

def skillDomains : List (String × List String) :=
  [("AI/ML", ["ai", "machine learning", "neural", "model", "training",
              "inference", "llm", "gpt", "claude", "agent"]),
   ("Infrastructure", ["cloud", "server", "deploy", "kubernetes", "docker",
                       "infrastructure", "compute", "gpu", "cluster"]),
   ("Security", ["security", "privacy", "encryption", "auth",
                 "vulnerability", "trust", "permission"]),
   ("Product", ["user", "product", "feature", "experience", "interface",
                "design", "customer"]),
   ("Business", ["revenue", "market", "strategy", "growth", "enterprise",
                 "startup", "investment", "valuation"]),
   ("Open Source", ["open source", "github", "community", "contributor",
                    "fork", "repository", "license"]),
   ("Education", ["learn", "teach", "student", "course", "curriculum",
                  "training", "workshop"]),
   ("Governance", ["policy", "regulation", "compliance", "governance",
                   "ethics", "responsible"])]

def extract_skills (sp : Speaker) : List Skill :=
  let all_text := lowerStr (joinSp (sp.passages.map (·.text)))
  let skills := skillDomains.filterMap fun dom =>
    let hits := (dom.2.map fun kw => pyCountStr all_text kw).sum
    if 3 ≤ hits then
      some ⟨dom.1, if 10 ≤ hits then "strong" else "moderate", hits⟩
    else none
  stableSortBy (fun a b => b.hit_count ≤ a.hit_count) skills

def applySkills (sp : Speaker) : Speaker := { sp with skills := extract_skills sp }

-- ── Layer 2: corpus analysis ──

def stop_words : List String :=
  ["that", "this", "with", "have", "from", "they", "been",
   "were", "their", "will", "would", "could", "should",
   "about", "which", "there", "when", "what", "your",
   "just", "like", "know", "think", "going", "really",
   "very", "also", "some", "more", "than", "then",
   "into", "other", "people", "because", "something"]

def corpusText (speakers : List Speaker) : String :=
  lowerStr (joinSp ((speakers.map fun s => s.passages.map (·.text)).flatten))

def detect_themes (speakers : List Speaker) : List Theme :=
  let words := tokensMin 4 (corpusText speakers)
  let word_freq := countOcc words
  (((mostCommon 50 word_freq).filter fun wc =>
      !stop_words.contains wc.1 && 5 ≤ wc.2).map fun wc =>
    Theme.mk wc.1 wc.2).take 15

def contrast_markers : List String :=
  ["however", "disagree", "but actually",
   "on the contrary", "not necessarily",
   "i would argue", "the problem with"]

def speakerFullText (s : Speaker) : String :=
  lowerStr (joinSp (s.passages.map (·.text)))

def contrastCount (s : Speaker) : Nat :=
  (contrast_markers.map fun m => pyCountStr (speakerFullText s) m).sum

def tensionNote : String :=
  "Potential disagreement detected via linguistic markers"

/-- Ordered pairs `(speakers[i], speakers[j])`, `i < j`, in the
enumeration order of the two nested loops. -/
def tensionPairs : List Speaker → List (Speaker × Speaker)
  | [] => []
  | s :: rest => (rest.map fun s2 => (s, s2)) ++ tensionPairs rest

def detect_tensions (speakers : List Speaker) : List Tension :=
  (tensionPairs speakers).filterMap fun p =>
    let total := contrastCount p.1 + contrastCount p.2
    if 3 ≤ total then some ⟨[p.1.name, p.2.name], total, tensionNote⟩
    else none

-- ── Layer 3: query routing ──

def questionWords (question : String) : List String :=
  (tokensMin 3 (lowerStr question)).dedup

def passageOverlap (qws : List String) (p : Passage) : ℚ :=
  let pws := tokensMin 3 (lowerStr p.text)
  ((qws.filter fun w => pws.contains w).length : ℚ) / (max qws.length 1 : ℚ)

def skillBonus (skills : List Skill) (qws : List String) : ℚ :=
  skills.foldl
    (fun acc sk =>
      let sw := (lowerStr sk.domain).splitOn "/"
      if sw.any (fun w => qws.contains w) then acc + 2/10 else acc) 0

def speakerSkipped (target : Option String) (name : String) : Bool :=
  match target with
  | none => false
  | some t => t ≠ "" && !containsSub (lowerStr name) (lowerStr t)

/-- The `passage_scores` list built for one speaker: each passage with
its overlap score, kept when the score exceeds 0.1. -/
def passageScores (qws : List String) (sp : Speaker) : List (Passage × ℚ) :=
  sp.passages.filterMap fun p =>
    let score := passageOverlap qws p
    if 1/10 < score then some (p, score) else none

/-- The per-speaker body of the `route_question` loop: `none` when the
speaker is skipped or has no qualifying passage, otherwise the speaker
with its final score and top-3 passages (sorted by overlap, scores
dropped). -/
def speakerResult (qws : List String) (target : Option String)
    (sp : Speaker) : Option (Speaker × ℚ × List Passage) :=
  if speakerSkipped target sp.name then none
  else
    match stableSortBy (fun a b => b.2 ≤ a.2) (passageScores qws sp) with
    | [] => none
    | top :: rest =>
      some (sp, top.2 * (7/10) + skillBonus sp.skills qws * (3/10),
        ((top :: rest).take 3).map (·.1))

def route_question (question : String) (mind : ConferenceMind)
    (target : Option String) : List (Speaker × ℚ × List Passage) :=
  let results := mind.speakers.filterMap
    (speakerResult (questionWords question) target)
  (stableSortBy (fun a b => b.2.1 ≤ a.2.1) results).take 3

def truncate300 (s : String) : String :=
  ⟨s.data.take 300⟩ ++ (if 300 < s.data.length then "..." else "")

def passageTag (name : String) (p : Passage) : String :=
  "  [" ++ name ++
    (if p.timestamp ≠ "" then ", " ++ p.timestamp
     else ", position " ++ toString p.position) ++
    "] \"" ++ truncate300 p.text ++ "\""

def format_response (results : List (Speaker × ℚ × List Passage))
    (_question : String) : String :=
  if results.isEmpty then
    "No speakers found with relevant content for this question."
  else
    joinNL ((results.map fun r =>
      ("**" ++ r.1.name ++ "** (relevance: " ++ showPercent r.2.1 ++ ")") ::
        ((r.2.2.take 2).map fun p => passageTag r.1.name p) ++ [""]).flatten)

-- ── Persistence: typed model of the on-disk store ──

/-- Files of one `speakers/<slug>/` directory; `none` = file absent. -/
structure SpeakerFiles where
  passagesFile : Option (List Passage) := none
  soulFile : Option String := none
  skillsFile : Option String := none
deriving Repr, DecidableEq

/-- `meta.json` (JSON modelled as the typed record it serializes). -/
structure MetaRec where
  name : String
  created : String
  source_file : String
  speaker_count : Nat
  themes : List Theme
  tensions : List Tension
deriving Repr, DecidableEq

/-- One conference directory; `none` fields = absent files, a `none`
`speakersDir` = no `speakers/` subdirectory. -/
structure ConfDir where
  metaFile : Option MetaRec := none
  rawFile : Option String := none
  cleanFile : Option String := none
  speakersDir : Option (List (String × SpeakerFiles)) := none
  themesFile : Option (List Theme) := none
  tensionsFile : Option (List Tension) := none
  summitFile : Option String := none
deriving Repr, DecidableEq

/-- The `~/.conference-minds/conferences` directory: a listing of
conference directories keyed by slug (creation order). -/
abbrev Store := List (String × ConfDir)

/-- Look a name up in a directory listing. -/
def assocGet (st : List (String × β)) (k : String) : Option β :=
  (st.find? fun p => p.1 = k).map (·.2)

/-- Write a file/directory: overwrite in place when the name exists,
append a new entry otherwise. -/
def assocSet (st : List (String × β)) (k : String) (v : β) :
    List (String × β) :=
  if st.any (fun p => p.1 = k) then
    st.map fun p => if p.1 = k then (k, v) else p
  else st ++ [(k, v)]

def storeGet (st : Store) (k : String) : Option ConfDir := assocGet st k

def storeSet (st : Store) (k : String) (d : ConfDir) : Store :=
  assocSet st k d

def dirGet (sd : List (String × SpeakerFiles)) (k : String) :
    Option SpeakerFiles := assocGet sd k

def dirSet (sd : List (String × SpeakerFiles)) (k : String)
    (f : SpeakerFiles) : List (String × SpeakerFiles) := assocSet sd k f

-- ── Persistence: file contents written by `save_mind` ──

def soulMd (sp : Speaker) : String :=
  let base := "# " ++ sp.name ++ " - Communication Soul\n\n"
  match sp.soul with
  | .empty => base
  | .raw _ => base ++ "## Voice\n" ++ "\n## Signature Phrases\n"
  | .profile _ v sig _ _ =>
    base ++ "## Voice\n" ++
      "- sentence_structure: " ++ v.sentence_structure ++ "\n" ++
      "- vocabulary_register: " ++ v.vocabulary_register ++ "\n" ++
      "- question_frequency: " ++ v.question_frequency ++ "\n" ++
      "- avg_sentence_length: " ++ showTenths v.avg_sentence_length ++ "\n" ++
      "\n## Signature Phrases\n" ++
      String.join (sig.map fun ph => "- \"" ++ ph ++ "\"\n")

def skillsMd (sp : Speaker) : String :=
  "# " ++ sp.name ++ " - Expertise\n\n" ++
    String.join (sp.skills.map fun sk =>
      "- **" ++ sk.domain ++ "**: " ++ sk.strength ++ " (" ++
        toString sk.hit_count ++ " references)\n")

def summitMd (mind : ConferenceMind) : String :=
  "# " ++ mind.name ++ " - Summit Mind\n\n" ++
  "Created: " ++ mind.created ++ "\n" ++
  "Speakers: " ++ toString mind.speakers.length ++ "\n\n" ++
  "## Themes\n" ++
  String.join ((mind.themes.take 10).map fun t =>
    "- " ++ t.theme ++ " (" ++ toString t.frequency ++ " mentions)\n") ++
  "\n## Tensions\n" ++
  String.join (mind.tensions.map fun t =>
    "- " ++ String.intercalate " vs " t.speakers ++ ": " ++ t.note ++ "\n") ++
  "\n## Speakers\n" ++
  String.join (mind.speakers.map fun s =>
    "- **" ++ s.name ++ "**: " ++ toString s.passages.length ++ " passages" ++
      (if !s.skills.isEmpty then
        " | " ++ String.intercalate ", " ((s.skills.take 3).map (·.domain))
       else "") ++ "\n")

def speakerFilesOf (sp : Speaker) (old : SpeakerFiles) : SpeakerFiles :=
  { old with
    soulFile := some (soulMd sp)
    skillsFile := some (skillsMd sp)
    passagesFile := some sp.passages }

/-- Body of the per-speaker save loop: `mkdir(exist_ok=True)` then the
three file writes. -/
def speakerStep (sd : List (String × SpeakerFiles)) (sp : Speaker) :
    List (String × SpeakerFiles) :=
  let sslug := slugify sp.name
  dirSet sd sslug (speakerFilesOf sp ((dirGet sd sslug).getD {}))

def save_mind (st : Store) (mind : ConferenceMind) : Store :=
  let slug := slugify mind.name
  let d0 := (storeGet st slug).getD {}
  let meta : MetaRec :=
    ⟨mind.name, mind.created, mind.source_file, mind.speakers.length,
     mind.themes, mind.tensions⟩
  let d1 := { d0 with
    metaFile := some meta
    rawFile := some mind.raw_transcript
    cleanFile := some mind.clean_transcript }
  let d2 :=
    match mind.speakers with
    | [] => d1
    | _ => { d1 with
        speakersDir := some (mind.speakers.foldl speakerStep
          (d1.speakersDir.getD [])) }
  let d3 := { d2 with
    themesFile := some mind.themes
    tensionsFile := some mind.tensions
    summitFile := some (summitMd mind) }
  storeSet st slug d3

-- ── Persistence: `load_mind` ──

/-- Python `str.title()` (ASCII model): uppercase a letter not preceded
by a letter, lowercase the rest. -/
def titleCaseL : List Char → Bool → List Char
  | [], _ => []
  | c :: cs, prevAlpha =>
    (if isAlphaCh c then (if prevAlpha then lowerCh c else upperCh c) else c)
      :: titleCaseL cs (isAlphaCh c)

def titleCase (s : String) : String := ⟨titleCaseL s.data false⟩

/-- `slug.replace('-', ' ')`. -/
def dashToSpace (s : String) : String :=
  ⟨s.data.map fun c => if c = '-' then ' ' else c⟩

/-- Char-code lexicographic order on strings (the order `sorted` uses
on the ASCII slug paths). -/
def lexLe : List Char → List Char → Bool
  | [], _ => true
  | _ :: _, [] => false
  | a :: as, b :: bs =>
    if a.toNat < b.toNat then true
    else if b.toNat < a.toNat then false
    else lexLe as bs

def strLe (a b : String) : Bool := lexLe a.data b.data

def loadSpeaker (e : String × SpeakerFiles) : Speaker :=
  { name := titleCase (dashToSpace e.1)
    passages := e.2.passagesFile.getD []
    soul := match e.2.soulFile with
            | some s => .raw s
            | none => .empty }

/-- `load_mind`, returning `.error ()` where the Python raises (reading
`meta.json` from an existing directory that lacks it). -/
def load_mind (st : Store) (name : String) :
    Except Unit (Option ConferenceMind) :=
  let slug := slugify name
  match storeGet st slug with
  | none => .ok none
  | some d =>
    match d.metaFile with
    | none => .error ()
    | some meta =>
      .ok (some
        { name := meta.name
          created := meta.created
          source_file := meta.source_file
          themes := meta.themes
          tensions := meta.tensions
          raw_transcript := d.rawFile.getD ""
          clean_transcript := d.cleanFile.getD ""
          speakers :=
            match d.speakersDir with
            | none => []
            | some entries =>
              (stableSortBy (fun a b => strLe a.1 b.1) entries).map loadSpeaker })

-- ── Main pipeline ──

/-- `ingest`; `now` stands for `datetime.now().isoformat()` and
`nowShort` for `datetime.now().strftime('%Y-%m-%d %H:%M')`. -/
def ingest (transcript nameArg source_file now nowShort : String)
    (st : Store) : ConferenceMind × Store :=
  let name := if nameArg = "" then "Conference " ++ nowShort else nameArg
  let fmt := detect_format transcript
  let clean := clean_transcript transcript fmt
  let speakers := (extract_speakers clean).map fun sp => applySkills (applySoul sp)
  let themes := detect_themes speakers
  let tensions := detect_tensions speakers
  let mind : ConferenceMind :=
    { name := name
      created := now
      source_file := source_file
      speakers := speakers
      themes := themes
      tensions := tensions
      raw_transcript := transcript
      clean_transcript := clean }
  (mind, save_mind st mind)

def ask (st : Store) (question conference_name : String)
    (speaker_name : Option String) : Except Unit String :=
  match load_mind st conference_name with
  | .error e => .error e
  | .ok none =>
    .ok ("Conference '" ++ conference_name ++
      "' not found. Use 'list' to see available minds.")
  | .ok (some mind) =>
    .ok (format_response (route_question question mind speaker_name) question)

-- ── Generic lemmas about the string helpers ──

theorem head?_dropWhile_not (p : α → Bool) (l : List α) :
    ∀ c ∈ (l.dropWhile p).head?, ¬ p c := by
  induction l with
  | nil => simp
  | cons a l ih =>
    by_cases h : p a
    · simpa [List.dropWhile_cons, h] using ih
    · simp [List.dropWhile_cons, h]

theorem dropWhile_eq_self_of (p : α → Bool) (l : List α)
    (h : ∀ c ∈ l.head?, ¬ p c) : l.dropWhile p = l := by
  cases l with
  | nil => rfl
  | cons a l =>
    have := h a (by simp)
    simp [List.dropWhile_cons, this]

theorem getLast?_dropWhile (p : α → Bool) (l : List α)
    (h : l.dropWhile p ≠ []) : (l.dropWhile p).getLast? = l.getLast? := by
  induction l with
  | nil => simp at h
  | cons a l ih =>
    by_cases hp : p a
    · rw [List.dropWhile_cons_of_pos hp] at h ⊢
      rw [ih h]
      have hl : l ≠ [] := by
        intro e; subst e; simp at h
      cases l with
      | nil => exact absurd rfl hl
      | cons b m => rw [List.getLast?_cons_cons]
    · rw [List.dropWhile_cons_of_neg hp]

theorem mem_of_mem_dropWhile (p : α → Bool) (l : List α) {a : α}
    (h : a ∈ l.dropWhile p) : a ∈ l :=
  (List.dropWhile_suffix p).subset h

theorem pyStripL_noLead (cs : List Char) :
    ∀ c ∈ (pyStripL cs).head?, ¬ isPySpace c := by
  intro c hc
  unfold pyStripL at hc
  rw [List.head?_reverse] at hc
  have hne : (cs.dropWhile isPySpace).reverse.dropWhile isPySpace ≠ [] := by
    intro e; rw [e] at hc; simp at hc
  rw [getLast?_dropWhile _ _ hne, List.getLast?_reverse] at hc
  exact head?_dropWhile_not _ _ c hc

theorem pyStripL_noTrail (cs : List Char) :
    ∀ c ∈ (pyStripL cs).getLast?, ¬ isPySpace c := by
  intro c hc
  unfold pyStripL at hc
  rw [List.getLast?_reverse] at hc
  exact head?_dropWhile_not _ _ c hc

theorem pyStripL_eq_self (cs : List Char)
    (h1 : ∀ c ∈ cs.head?, ¬ isPySpace c)
    (h2 : ∀ c ∈ cs.getLast?, ¬ isPySpace c) : pyStripL cs = cs := by
  unfold pyStripL
  rw [dropWhile_eq_self_of _ _ h1]
  rw [dropWhile_eq_self_of _ _ (by
    intro c hc; rw [List.head?_reverse] at hc; exact h2 c hc)]
  exact List.reverse_reverse cs

theorem pyStripL_idem (cs : List Char) :
    pyStripL (pyStripL cs) = pyStripL cs :=
  pyStripL_eq_self _ (pyStripL_noLead cs) (pyStripL_noTrail cs)

theorem pyStrip_eq_self (s : String)
    (h1 : ∀ c ∈ s.data.head?, ¬ isPySpace c)
    (h2 : ∀ c ∈ s.data.getLast?, ¬ isPySpace c) : pyStrip s = s := by
  unfold pyStrip
  rw [pyStripL_eq_self s.data h1 h2]

theorem pyStrip_idem (s : String) : pyStrip (pyStrip s) = pyStrip s := by
  unfold pyStrip
  exact congrArg String.mk (pyStripL_idem s.data)

theorem mem_pyStripL (cs : List Char) {a : Char}
    (h : a ∈ pyStripL cs) : a ∈ cs := by
  unfold pyStripL at h
  rw [List.mem_reverse] at h
  have h2 := mem_of_mem_dropWhile _ _ h
  rw [List.mem_reverse] at h2
  exact mem_of_mem_dropWhile _ _ h2

theorem not_p_of_mem_splitOnP (p : α → Bool) (cs : List α) :
    ∀ l ∈ cs.splitOnP p, ∀ c ∈ l, ¬ p c := by
  induction cs with
  | nil =>
    intro l hl c hc
    rw [List.splitOnP_nil, List.mem_singleton] at hl
    subst hl; simp at hc
  | cons a cs ih =>
    intro l hl c hc
    rw [List.splitOnP_cons] at hl
    by_cases h : p a
    · rw [if_pos h] at hl
      rcases List.mem_cons.mp hl with rfl | hl
      · simp at hc
      · exact ih l hl c hc
    · rw [if_neg h] at hl
      rcases hsp : cs.splitOnP p with _ | ⟨hd, tl⟩
      · exact absurd hsp (List.splitOnP_ne_nil p cs)
      · rw [hsp, List.modifyHead_cons] at hl
        rcases List.mem_cons.mp hl with rfl | hl2
        · rcases List.mem_cons.mp hc with rfl | hc2
          · exact h
          · exact ih hd (by rw [hsp]; exact List.mem_cons_self hd tl) c hc2
        · exact ih l (by rw [hsp]; exact List.mem_cons_of_mem hd hl2) c hc

theorem splitNL_lines_noNL (s : String) :
    ∀ l ∈ splitNL s, '\n' ∉ l.data := by
  intro l hl
  unfold splitNL at hl
  rcases List.mem_map.mp hl with ⟨cs, hcs, rfl⟩
  intro hmem
  exact not_p_of_mem_splitOnP (· == '\n') s.data cs
    (by simpa [List.splitOn] using hcs) '\n' hmem (by simp)

theorem interNL_single (l : List Char) : ['\n'].intercalate [l] = l := by
  simp [List.intercalate]

theorem interNL_cons (a b : List Char) (L : List (List Char)) :
    ['\n'].intercalate (a :: b :: L) = a ++ '\n' :: ['\n'].intercalate (b :: L) := by
  simp [List.intercalate]

theorem interNL_ne_nil (L : List (List Char)) (hL : L ≠ [])
    (hne : ∀ l ∈ L, l ≠ []) : ['\n'].intercalate L ≠ [] := by
  cases L with
  | nil => exact absurd rfl hL
  | cons a L =>
    cases L with
    | nil => rw [interNL_single]; exact hne a (by simp)
    | cons b M => rw [interNL_cons]; simp

theorem splitNL_joinNL (L : List String) (hL : L ≠ [])
    (hnl : ∀ l ∈ L, '\n' ∉ l.data) : splitNL (joinNL L) = L := by
  unfold splitNL joinNL
  have hx : ∀ l ∈ L.map String.data, '\n' ∉ l := by
    intro l hl
    rcases List.mem_map.mp hl with ⟨s, hs, rfl⟩
    exact hnl s hs
  have hls : L.map String.data ≠ [] := by simpa using hL
  rw [show (String.mk (['\n'].intercalate (L.map String.data))).data
        = ['\n'].intercalate (L.map String.data) from rfl]
  rw [List.splitOn_intercalate (L.map String.data) '\n' hx hls, List.map_map]
  have hcomp : (String.mk ∘ String.data) = id := by
    funext s; rfl
  rw [hcomp, List.map_id]

theorem joinNL_noLead (L : List String)
    (hne : ∀ l ∈ L, l.data ≠ [])
    (h : ∀ l ∈ L, ∀ c ∈ l.data.head?, ¬ isPySpace c) :
    ∀ c ∈ (joinNL L).data.head?, ¬ isPySpace c := by
  cases L with
  | nil => intro c hc; simp [joinNL, List.intercalate] at hc
  | cons a L =>
    cases L with
    | nil =>
      intro c hc
      unfold joinNL at hc
      rw [show ((a :: []).map String.data) = [a.data] from rfl,
        interNL_single] at hc
      exact h a (by simp) c hc
    | cons b M =>
      intro c hc
      unfold joinNL at hc
      rw [show ((a :: b :: M).map String.data)
            = a.data :: b.data :: M.map String.data from rfl,
        interNL_cons] at hc
      rcases he : a.data with _ | ⟨x, xs⟩
      · exact absurd he (hne a (by simp))
      · rw [he] at hc
        simp only [List.cons_append, List.head?_cons, Option.mem_def,
          Option.some.injEq] at hc
        subst hc
        exact h a (by simp) x (by rw [he]; simp)

theorem getLast?_append_right (l l' : List α) (h : l' ≠ []) :
    (l ++ l').getLast? = l'.getLast? := by
  induction l with
  | nil => rfl
  | cons a l ih =>
    rw [List.cons_append]
    have hne : l ++ l' ≠ [] := by
      intro e
      rcases List.append_eq_nil.mp e with ⟨_, h2⟩
      exact h h2
    cases hc : l ++ l' with
    | nil => exact absurd hc hne
    | cons y ys => rw [List.getLast?_cons_cons, ← hc, ih]

theorem joinNL_noTrail (L : List String)
    (hne : ∀ l ∈ L, l.data ≠ [])
    (h : ∀ l ∈ L, ∀ c ∈ l.data.getLast?, ¬ isPySpace c) :
    ∀ c ∈ (joinNL L).data.getLast?, ¬ isPySpace c := by
  induction L with
  | nil => intro c hc; simp [joinNL, List.intercalate] at hc
  | cons a L ih =>
    cases L with
    | nil =>
      intro c hc
      unfold joinNL at hc
      rw [show ((a :: []).map String.data) = [a.data] from rfl,
        interNL_single] at hc
      exact h a (by simp) c hc
    | cons b M =>
      intro c hc
      unfold joinNL at hc
      rw [show ((a :: b :: M).map String.data)
            = a.data :: b.data :: M.map String.data from rfl,
        interNL_cons] at hc
      have ht : ['\n'].intercalate (b.data :: M.map String.data) ≠ [] := by
        apply interNL_ne_nil _ (by simp)
        intro l hl
        rcases List.mem_cons.mp hl with rfl | hl2
        · exact hne b (by simp)
        · rcases List.mem_map.mp hl2 with ⟨s, hs, rfl⟩
          exact hne s (by simp [hs])
      rw [getLast?_append_right _ _ (by simp)] at hc
      cases hti : ['\n'].intercalate (b.data :: M.map String.data) with
      | nil => exact absurd hti ht
      | cons y ys =>
        rw [hti, List.getLast?_cons_cons] at hc
        rw [← hti] at hc
        have : ['\n'].intercalate (b.data :: M.map String.data)
            = (joinNL (b :: M)).data := rfl
        rw [this] at hc
        exact ih (fun l hl => hne l (by simp [hl]))
          (fun l hl => h l (by simp [hl])) c hc

theorem filterMap_eq_self (f : α → Option α) (l : List α)
    (h : ∀ a ∈ l, f a = some a) : l.filterMap f = l := by
  induction l with
  | nil => rfl
  | cons a l ih =>
    rw [List.filterMap_cons_some (h a (by simp)),
      ih (fun b hb => h b (by simp [hb]))]

theorem keepLine_some (drop : String → Bool) (l s : String)
    (h : keepLine drop l = some s) :
    s = pyStrip l ∧ drop s = false ∧ s ≠ "" := by
  unfold keepLine at h
  by_cases hd : drop (pyStrip l)
  · rw [if_pos hd] at h; exact absurd h (by simp)
  · rw [if_neg hd] at h
    by_cases hne : pyStrip l ≠ ""
    · rw [if_pos hne] at h
      have hs : s = pyStrip l := by
        cases h; rfl
      subst hs
      exact ⟨rfl, by simpa using hd, hne⟩
    · rw [if_neg hne] at h; exact absurd h (by simp)

theorem string_ne_empty_iff (s : String) : s ≠ "" ↔ s.data ≠ [] := by
  constructor
  · intro h he
    exact h (congrArg String.mk he)
  · intro h he
    rw [he] at h
    exact h rfl

theorem cleanFilterL_idem (drop : String → Bool) (t : String) :
    cleanFilterL drop (cleanFilterL drop t) = cleanFilterL drop t := by
  unfold cleanFilterL
  have hprops : ∀ s ∈ (splitNL (pyStrip t)).filterMap (keepLine drop),
      drop s = false ∧ s ≠ "" ∧ '\n' ∉ s.data ∧ pyStrip s = s ∧
      (∀ c ∈ s.data.head?, ¬ isPySpace c) ∧
      (∀ c ∈ s.data.getLast?, ¬ isPySpace c) := by
    intro s hs
    rcases List.mem_filterMap.mp hs with ⟨l, hl, hkeep⟩
    obtain ⟨hsl, hdrop, hne⟩ := keepLine_some _ _ _ hkeep
    subst hsl
    refine ⟨hdrop, hne, ?_, pyStrip_idem l, pyStripL_noLead l.data,
      pyStripL_noTrail l.data⟩
    intro hmem
    exact splitNL_lines_noNL _ l hl (mem_pyStripL _ hmem)
  cases hMc : (splitNL (pyStrip t)).filterMap (keepLine drop) with
  | nil =>
    have hk : keepLine drop "" = none := by
      unfold keepLine
      cases hd : drop (pyStrip "") <;> simp [pyStrip, pyStripL]
    show joinNL ((splitNL (pyStrip (joinNL []))).filterMap (keepLine drop))
        = joinNL []
    rw [show joinNL [] = "" from rfl,
      show pyStrip "" = "" from rfl,
      show splitNL "" = [""] from rfl]
    rw [List.filterMap_cons_none hk]
    rfl
  | cons s0 M' =>
    rw [← hMc]
    set M := (splitNL (pyStrip t)).filterMap (keepLine drop) with hM
    have hMne : M ≠ [] := by rw [hMc]; simp
    have hdata : ∀ l ∈ M, l.data ≠ [] :=
      fun l hl => (string_ne_empty_iff l).mp (hprops l hl).2.1
    have h1 : pyStrip (joinNL M) = joinNL M :=
      pyStrip_eq_self _
        (joinNL_noLead M hdata (fun l hl => (hprops l hl).2.2.2.2.1))
        (joinNL_noTrail M hdata (fun l hl => (hprops l hl).2.2.2.2.2))
    have h2 : splitNL (joinNL M) = M :=
      splitNL_joinNL M hMne (fun l hl => (hprops l hl).2.2.1)
    rw [h1, h2]
    congr 1
    apply filterMap_eq_self
    intro s hs
    obtain ⟨hdrop, hne, _, hstrip, _, _⟩ := hprops s hs
    simp [keepLine, hstrip, hdrop, hne]

-- ── C4: normalizer idempotence ──

/-- C4 (counterexample): for the `youtube` format the normalizer is not
idempotent — on `"0:00 1:23 hello"` one application leaves
`"1:23 hello"`, a second strips the surviving clock prefix again. -/
theorem C4_counterexample :
    clean_transcript "0:00 1:23 hello" "youtube" = "1:23 hello" ∧
    clean_transcript (clean_transcript "0:00 1:23 hello" "youtube") "youtube"
      = "hello" ∧
    clean_transcript (clean_transcript "0:00 1:23 hello" "youtube") "youtube"
      ≠ clean_transcript "0:00 1:23 hello" "youtube" :=
  ⟨rfl, rfl, by decide⟩

/-- C4 (amended): `clean_transcript` applied twice equals one
application for the `srt`, `vtt`, `labeled` and `raw` format kinds
(every format but `youtube`, which dispatches to the prefix-stripping
cleaner and is not idempotent). -/
theorem C4_clean_idempotent (text fmt : String) (h : fmt ≠ "youtube") :
    clean_transcript (clean_transcript text fmt) fmt
      = clean_transcript text fmt := by
  unfold clean_transcript cleanSrt cleanVtt cleanRaw
  by_cases h1 : fmt = "srt"
  · simp only [h1, if_pos]
    exact cleanFilterL_idem _ _
  · by_cases h2 : fmt = "vtt"
    · simp only [if_neg h1, h2, if_pos]
      exact cleanFilterL_idem _ _
    · simp only [if_neg h1, if_neg h2, if_neg h]
      exact cleanFilterL_idem _ _

/-- C4 witness: the amended idempotence instantiated at a concrete SRT
transcript. -/
theorem C4_witness :
    ("srt" : String) ≠ "youtube" ∧
    clean_transcript
        (clean_transcript "1\n00:00:01 --> 00:00:02\nhi\n\nyo" "srt") "srt"
      = clean_transcript "1\n00:00:01 --> 00:00:02\nhi\n\nyo" "srt" :=
  ⟨by decide, C4_clean_idempotent "1\n00:00:01 --> 00:00:02\nhi\n\nyo" "srt"
    (by decide)⟩

-- ── C5: segmentation passage count ──

/-- A line that opens a new attribution in `extract_speakers`. -/
def isLabelLine (l : String) : Bool := (speakerMatch (pyStrip l)).isSome

/-- Number of label lines ("speaker-label transitions"). -/
def labelCount (ls : List String) : Nat := ls.countP isLabelLine

/-- Every line up to the next label line (or the end) is blank. -/
def blanksToLabel : List String → Bool
  | [] => true
  | l :: ls =>
    if isLabelLine l then true else pyStrip l = "" && blanksToLabel ls

/-- Some non-blank, non-label line appears before the first label line
("leading unlabeled text"). -/
def leadingContent : List String → Bool
  | [] => false
  | l :: ls =>
    if isLabelLine l then false else pyStrip l ≠ "" || leadingContent ls

/-- Label lines whose segment stays empty: empty remainder after the
colon and only blank lines up to the next label (or the end). -/
def emptyLabelSegs : List String → Nat
  | [] => 0
  | l :: ls =>
    (match speakerMatch (pyStrip l) with
     | some m => if pyStrip m.rest = "" && blanksToLabel ls then 1 else 0
     | none => 0) + emptyLabelSegs ls

/-- Label lines whose segment is nonempty. -/
def nonemptyLabelSegs : List String → Nat
  | [] => 0
  | l :: ls =>
    (match speakerMatch (pyStrip l) with
     | some m => if pyStrip m.rest = "" && blanksToLabel ls then 0 else 1
     | none => 0) + nonemptyLabelSegs ls

/-- Number of passages the `extract_speakers` loop emits over `lines`
when the buffer is (non)empty on entry. -/
def flushCount : List String → Bool → Nat
  | [], b => if b then 1 else 0
  | l :: ls, b =>
    match speakerMatch (pyStrip l) with
    | some m => (if b then 1 else 0) + flushCount ls (pyStrip m.rest ≠ "")
    | none =>
      if pyStrip l ≠ "" then flushCount ls true else flushCount ls b

theorem leadingContent_eq_not_blanks (ls : List String) :
    leadingContent ls = !blanksToLabel ls := by
  induction ls with
  | nil => rfl
  | cons l ls ih =>
    unfold leadingContent blanksToLabel
    by_cases h : isLabelLine l
    · simp [h]
    · simp only [if_neg h, ih]
      by_cases hb : pyStrip l = "" <;> simp [hb]

theorem flushCount_eq (ls : List String) (b : Bool) :
    flushCount ls b
      = nonemptyLabelSegs ls + (if b || leadingContent ls then 1 else 0) := by
  induction ls generalizing b with
  | nil => cases b <;> rfl
  | cons l ls ih =>
    cases hm : speakerMatch (pyStrip l) with
    | some m =>
      have hlab : isLabelLine l = true := by
        unfold isLabelLine; rw [hm]; rfl
      simp only [flushCount, nonemptyLabelSegs, leadingContent, hm, hlab,
        if_true, ih, leadingContent_eq_not_blanks]
      by_cases hr : pyStrip m.rest = "" <;>
        by_cases hbl : blanksToLabel ls <;>
          cases b <;> simp [hr, hbl] <;> omega
    | none =>
      have hlab : isLabelLine l = false := by
        unfold isLabelLine; rw [hm]; rfl
      simp only [flushCount, nonemptyLabelSegs, leadingContent, hm, hlab,
        Bool.false_eq_true, if_false, ih, leadingContent_eq_not_blanks]
      by_cases hb : pyStrip l = "" <;> cases b <;>
        simp [hb, leadingContent_eq_not_blanks] <;> omega

def dictSize (d : PassDict) : Nat := (d.map fun p => p.2.length).sum

theorem map_update_size (d : PassDict) (name : String) (pa : Passage)
    (hnd : (d.map Prod.fst).Nodup)
    (hin : d.any (fun p => p.1 = name)) :
    dictSize (d.map fun p =>
      if p.1 = name then (p.1, p.2 ++ [pa]) else p) = dictSize d + 1 := by
  induction d with
  | nil => simp at hin
  | cons hd tl ih =>
    rw [List.map_cons, List.nodup_cons] at hnd
    by_cases hk : hd.1 = name
    · have htl : (tl.map fun p =>
          if p.1 = name then (p.1, p.2 ++ [pa]) else p) = tl := by
        apply List.map_congr_left ?_ |>.trans (List.map_id tl)
        intro p hp
        have : p.1 ≠ name := by
          intro e
          apply hnd.1
          have he : hd.1 = p.1 := by rw [hk, e]
          rw [he]
          exact List.mem_map_of_mem Prod.fst hp
        simp [this]
      simp only [List.map_cons, if_pos hk, htl, dictSize, List.map_cons,
        List.sum_cons, List.length_append]
      simp [Nat.add_assoc, Nat.add_comm, Nat.add_left_comm]
    · have hin2 : tl.any (fun p => p.1 = name) := by
        rcases List.any_eq_true.mp hin with ⟨p, hp, hpn⟩
        rcases List.mem_cons.mp hp with rfl | hp2
        · exact absurd (of_decide_eq_true hpn) hk
        · exact List.any_eq_true.mpr ⟨p, hp2, hpn⟩
      simp only [List.map_cons, if_neg hk, dictSize, List.sum_cons]
      have := ih hnd.2 hin2
      unfold dictSize at this
      omega

theorem addPassage_size (d : PassDict) (name text : String) (pos : Nat)
    (hnd : (d.map Prod.fst).Nodup) :
    dictSize (addPassage d name text pos) = dictSize d + 1 := by
  unfold addPassage
  by_cases hin : d.any (fun p => p.1 = name)
  · rw [if_pos hin]
    exact map_update_size d name _ hnd hin
  · rw [if_neg hin]
    simp [dictSize]

theorem addPassage_keys (d : PassDict) (name text : String) (pos : Nat) :
    (addPassage d name text pos).map Prod.fst
      = if d.any (fun p => p.1 = name) then d.map Prod.fst
        else d.map Prod.fst ++ [name] := by
  unfold addPassage
  by_cases hin : d.any (fun p => p.1 = name)
  · rw [if_pos hin, if_pos hin]
    rw [List.map_map]
    apply List.map_congr_left
    intro p _
    by_cases hk : p.1 = name <;> simp [hk]
  · rw [if_neg hin, if_neg hin]
    simp

theorem addPassage_nodup (d : PassDict) (name text : String) (pos : Nat)
    (hnd : (d.map Prod.fst).Nodup) :
    ((addPassage d name text pos).map Prod.fst).Nodup := by
  rw [addPassage_keys]
  by_cases hin : d.any (fun p => p.1 = name)
  · rw [if_pos hin]; exact hnd
  · rw [if_neg hin]
    rw [List.nodup_append]
    refine ⟨hnd, List.nodup_singleton name, ?_⟩
    intro a ha hb
    rw [List.mem_singleton] at hb
    subst hb
    rcases List.mem_map.mp ha with ⟨p, hp, hpa⟩
    exact hin (List.any_eq_true.mpr ⟨p, hp, by simp [hpa]⟩)

theorem extractLoop_size (lines : List String) (sp : String)
    (buf : List String) (pos : Nat) (d : PassDict)
    (hnd : (d.map Prod.fst).Nodup) :
    dictSize (extractLoop lines sp buf pos d)
      = dictSize d + flushCount lines (decide (buf ≠ [])) := by
  induction lines generalizing sp buf pos d with
  | nil =>
    by_cases hb : buf = []
    · simp [extractLoop, flushCount, hb]
    · simp only [extractLoop, if_pos hb, flushCount]
      rw [addPassage_size _ _ _ _ hnd]
      simp [hb]
  | cons l ls ih =>
    cases hm : speakerMatch (pyStrip l) with
    | some m =>
      simp only [extractLoop, hm, flushCount]
      have harg : (decide ((if pyStrip m.rest ≠ "" then [pyStrip m.rest]
          else []) ≠ [])) = decide (pyStrip m.rest ≠ "") := by
        by_cases hr : pyStrip m.rest = "" <;> simp [hr]
      by_cases hb : buf = []
      · subst hb
        rw [if_neg (by simp : ¬([] : List String) ≠ []),
          if_neg (by simp : ¬([] : List String) ≠ [])]
        rw [ih _ _ _ _ hnd, harg]
        simp
      · rw [if_pos hb, if_pos hb]
        rw [ih _ _ _ _ (addPassage_nodup _ _ _ _ hnd), harg,
          addPassage_size _ _ _ _ hnd, decide_eq_true hb]
        simp
        omega
    | none =>
      simp only [extractLoop, hm, flushCount]
      by_cases hb2 : pyStrip l ≠ ""
      · rw [if_pos hb2, if_pos hb2, ih _ _ _ _ hnd]
        simp
      · rw [if_neg hb2, if_neg hb2, ih _ _ _ _ hnd]

theorem extract_speakers_total (clean_text : String) :
    ((extract_speakers clean_text).map fun s => s.passages.length).sum
      = flushCount (splitNL clean_text) false := by
  unfold extract_speakers
  rw [List.map_map]
  have h := extractLoop_size (splitNL clean_text) "Unknown" [] 0 []
    (by simp)
  simp only [dictSize] at h
  rw [show ((fun s : Speaker => s.passages.length) ∘
      (fun p : String × List Passage =>
        ({ name := p.1, passages := p.2 } : Speaker)))
    = (fun p : String × List Passage => p.2.length) from rfl]
  rw [h]
  simp [flushCount]

theorem labelCount_split (ls : List String) :
    labelCount ls = nonemptyLabelSegs ls + emptyLabelSegs ls := by
  induction ls with
  | nil => rfl
  | cons l ls ih =>
    unfold labelCount at ih ⊢
    rw [List.countP_cons]
    unfold nonemptyLabelSegs emptyLabelSegs
    cases hm : speakerMatch (pyStrip l) with
    | some m =>
      have hlab : isLabelLine l = true := by
        unfold isLabelLine; rw [hm]; rfl
      simp only [hlab, if_true, ih]
      by_cases h : pyStrip m.rest = "" && blanksToLabel ls <;> simp [h] <;> omega
    | none =>
      have hlab : isLabelLine l = false := by
        unfold isLabelLine; rw [hm]; rfl
      simp only [hlab, ih]
      simp

/-- C5 (counterexample): on `"Alice:\nBob: hi"` the segmenter emits one
passage in total, while the text has two speaker-label transitions and
no leading unlabeled text — so the claimed count `transitions + 0 = 2`
is wrong (the label line `Alice:` opens an empty segment that is never
flushed). -/
theorem C5_counterexample :
    ((extract_speakers "Alice:\nBob: hi").map fun s => s.passages.length).sum
        = 1 ∧
    labelCount (splitNL "Alice:\nBob: hi") = 2 ∧
    leadingContent (splitNL "Alice:\nBob: hi") = false := by
  refine ⟨by decide, by decide, by decide⟩

/-- C5 (amended): the number of passages emitted by `extract_speakers`
equals the number of speaker-label transitions, plus 1 when there is
leading unlabeled text, minus the number of label lines whose segment
stays empty (empty text after the colon and only blank lines up to the
next label or the end of input). -/
theorem C5_passage_count (clean_text : String) :
    ((extract_speakers clean_text).map fun s => s.passages.length).sum
      = labelCount (splitNL clean_text)
        + (if leadingContent (splitNL clean_text) then 1 else 0)
        - emptyLabelSegs (splitNL clean_text) := by
  rw [extract_speakers_total, flushCount_eq, labelCount_split]
  simp only [Bool.false_or]
  omega

-- ── C6: style profile average ──

def soulAvg : Soul → ℚ
  | .profile _ v _ _ _ => v.avg_sentence_length
  | _ => 0

def soulStructure : Soul → String
  | .profile _ v _ _ _ => v.sentence_structure
  | _ => ""

/-- Claim C6's reading of the average: arithmetic mean of words per
non-empty fragment, the denominator being the number of non-empty
fragments floored at 1 (spec-side definition for comparison). -/
def specAvgNonempty (sp : Speaker) : ℚ :=
  let frs := (splitSentences (joinSp (sp.passages.map (·.text)))).filter
    fun s => pyStrip s ≠ ""
  ((frs.map fun s => (pyWords s).length).sum : ℚ) / (max frs.length 1 : ℚ)

/-- Claim C6's classification bands: concise ≤ 12, balanced between 12
and 20, complex > 20 (spec-side definition for comparison). -/
def specClassC6 (q : ℚ) : String :=
  if q ≤ 12 then "concise, direct"
  else if q ≤ 20 then "balanced, measured"
  else "complex, expansive"

/-- The average the code actually computes: words summed over the
non-empty fragments, divided by the count of all fragments (empty ones
included), floored at 1. -/
def codeAvg (sp : Speaker) : ℚ :=
  let frs := splitSentences (joinSp (sp.passages.map (·.text)))
  (((frs.filter fun s => pyStrip s ≠ "").map
      fun s => (pyWords s).length).sum : ℚ) / (max frs.length 1 : ℚ)

def spA6 : Speaker := { name := "A", passages := [⟨"A", "Hello.", 0, "", []⟩] }

def spB6 : Speaker :=
  { name := "B", passages := [⟨"B", "w w w w w w w w w w w w", 0, "", []⟩] }

theorem codeAvg_spA6 : codeAvg spA6 = 1/2 := by
  have e1 : (splitSentences (joinSp (spA6.passages.map (·.text)))).length = 2 := by
    decide
  have e2 : ((splitSentences (joinSp (spA6.passages.map (·.text)))).filter
      fun s => pyStrip s ≠ "").map (fun s => (pyWords s).length) = [1] := by
    decide
  simp only [codeAvg]
  rw [e2, e1]
  norm_num

theorem specAvgNonempty_spA6 : specAvgNonempty spA6 = 1 := by
  have e2 : ((splitSentences (joinSp (spA6.passages.map (·.text)))).filter
      fun s => pyStrip s ≠ "").map (fun s => (pyWords s).length) = [1] := by
    decide
  have e3 : ((splitSentences (joinSp (spA6.passages.map (·.text)))).filter
      fun s => pyStrip s ≠ "").length = 1 := by decide
  simp only [specAvgNonempty]
  rw [e2, e3]
  norm_num

theorem codeAvg_spB6 : codeAvg spB6 = 12 := by
  have e1 : (splitSentences (joinSp (spB6.passages.map (·.text)))).length = 1 := by
    decide
  have e2 : ((splitSentences (joinSp (spB6.passages.map (·.text)))).filter
      fun s => pyStrip s ≠ "").map (fun s => (pyWords s).length) = [12] := by
    decide
  simp only [codeAvg]
  rw [e2, e1]
  norm_num

theorem specAvgNonempty_spB6 : specAvgNonempty spB6 = 12 := by
  have e2 : ((splitSentences (joinSp (spB6.passages.map (·.text)))).filter
      fun s => pyStrip s ≠ "").map (fun s => (pyWords s).length) = [12] := by
    decide
  have e3 : ((splitSentences (joinSp (spB6.passages.map (·.text)))).filter
      fun s => pyStrip s ≠ "").length = 1 := by decide
  simp only [specAvgNonempty]
  rw [e2, e3]
  norm_num

/-- C6 (counterexample): on a passage `"Hello."` the code divides by
the total fragment count (the empty fragment after the final period
included) and reports average 0.5 where the claimed mean over
non-empty fragments is 1; and on a 12-word single-sentence passage the
code classifies `balanced` (strict `< 12` test) where the claim's
`concise ≤ 12` band says concise. -/
theorem C6_counterexample :
    soulAvg (generate_soul spA6) = 1/2 ∧
    specAvgNonempty spA6 = 1 ∧
    soulStructure (generate_soul spB6) = "balanced, measured" ∧
    specClassC6 (specAvgNonempty spB6) = "concise, direct" := by
  refine ⟨?_, specAvgNonempty_spA6, ?_, ?_⟩
  · rw [show soulAvg (generate_soul spA6) = roundPy1 (codeAvg spA6) from rfl,
      codeAvg_spA6]
    norm_num [roundPy1, roundHalfEven]
  · rw [show soulStructure (generate_soul spB6)
        = (if codeAvg spB6 < 12 then "concise, direct"
           else if codeAvg spB6 < 20 then "balanced, measured"
           else "complex, expansive") from rfl, codeAvg_spB6]
    norm_num
  · rw [specClassC6, specAvgNonempty_spB6]
    norm_num

/-- C6 (amended): `generate_soul` reports as average sentence length
the rounded quotient of the words in the non-empty fragments by the
count of all fragments (floored at 1), and classifies strictly:
concise when that average is `< 12`, balanced when it is in `[12, 20)`,
complex when it is `≥ 20`. -/
theorem C6_style (sp : Speaker) (h : sp.passages ≠ []) :
    soulAvg (generate_soul sp) = roundPy1 (codeAvg sp) ∧
    (codeAvg sp < 12 → soulStructure (generate_soul sp) = "concise, direct") ∧
    (12 ≤ codeAvg sp → codeAvg sp < 20 →
      soulStructure (generate_soul sp) = "balanced, measured") ∧
    (20 ≤ codeAvg sp →
      soulStructure (generate_soul sp) = "complex, expansive") := by
  have hs : soulStructure (generate_soul sp)
      = (if codeAvg sp < 12 then "concise, direct"
         else if codeAvg sp < 20 then "balanced, measured"
         else "complex, expansive") := rfl
  refine ⟨rfl, ?_, ?_, ?_⟩
  · intro h1
    rw [hs, if_pos h1]
  · intro h1 h2
    rw [hs, if_neg (by linarith), if_pos h2]
  · intro h1
    rw [hs, if_neg (by linarith), if_neg (by linarith)]

/-- C6 witness: the amended style rule instantiated at the concrete
12-word speaker, which lands in the balanced band. -/
theorem C6_style_witness :
    spB6.passages ≠ [] ∧
    soulStructure (generate_soul spB6) = "balanced, measured" := by
  refine ⟨by decide, ?_⟩
  exact (C6_style spB6 (by decide)).2.2.1 (le_of_eq codeAvg_spB6.symm)
    (by rw [codeAvg_spB6]; norm_num)

-- ── Generic lemmas for the stable sorts and the counter ──

theorem mem_insertBefore (r : α → α → Bool) (a : α) (l : List α) (x : α) :
    x ∈ insertBefore r a l ↔ x = a ∨ x ∈ l := by
  induction l with
  | nil => simp [insertBefore]
  | cons b l ih =>
    unfold insertBefore
    by_cases h : r a b <;> simp [h, ih] <;> tauto

theorem mem_stableSortBy (r : α → α → Bool) (l : List α) (x : α) :
    x ∈ stableSortBy r l ↔ x ∈ l := by
  induction l with
  | nil => simp [stableSortBy]
  | cons a l ih =>
    unfold stableSortBy
    rw [mem_insertBefore, ih]
    simp

theorem insertBefore_pairwise (r : α → α → Bool) (R : α → α → Prop)
    (h1 : ∀ x y, r x y = true → R x y)
    (h2 : ∀ x y, r x y = false → R y x)
    (htr : ∀ x y z, R x y → R y z → R x z)
    (a : α) (l : List α) (hl : l.Pairwise R) :
    (insertBefore r a l).Pairwise R := by
  induction l with
  | nil => simp [insertBefore]
  | cons b l ih =>
    rw [List.pairwise_cons] at hl
    unfold insertBefore
    by_cases h : r a b
    · rw [if_pos h, List.pairwise_cons]
      refine ⟨?_, List.pairwise_cons.mpr hl⟩
      intro y hy
      rcases List.mem_cons.mp hy with rfl | hy2
      · exact h1 _ _ h
      · exact htr _ _ _ (h1 _ _ h) (hl.1 y hy2)
    · rw [if_neg h, List.pairwise_cons]
      refine ⟨?_, ih hl.2⟩
      intro y hy
      rcases (mem_insertBefore r a l y).mp hy with rfl | hy2
      · exact h2 _ _ (by simpa using h)
      · exact hl.1 y hy2

theorem stableSortBy_pairwise (r : α → α → Bool) (R : α → α → Prop)
    (h1 : ∀ x y, r x y = true → R x y)
    (h2 : ∀ x y, r x y = false → R y x)
    (htr : ∀ x y z, R x y → R y z → R x z)
    (l : List α) : (stableSortBy r l).Pairwise R := by
  induction l with
  | nil => simp [stableSortBy]
  | cons a l ih =>
    exact insertBefore_pairwise r R h1 h2 htr a _ ih

theorem bumpCount_keys (acc : List (String × Nat)) (w : String) :
    (bumpCount acc w).map Prod.fst
      = if acc.any (fun p => p.1 = w) then acc.map Prod.fst
        else acc.map Prod.fst ++ [w] := by
  unfold bumpCount
  by_cases hin : acc.any (fun p => p.1 = w)
  · rw [if_pos hin, if_pos hin, List.map_map]
    apply List.map_congr_left
    intro p _
    by_cases hk : p.1 = w <;> simp [hk]
  · rw [if_neg hin, if_neg hin]
    simp

theorem bumpCount_nodup (acc : List (String × Nat)) (w : String)
    (hnd : (acc.map Prod.fst).Nodup) :
    ((bumpCount acc w).map Prod.fst).Nodup := by
  rw [bumpCount_keys]
  by_cases hin : acc.any (fun p => p.1 = w)
  · rw [if_pos hin]; exact hnd
  · rw [if_neg hin]
    rw [List.nodup_append]
    refine ⟨hnd, List.nodup_singleton w, ?_⟩
    intro a ha hb
    rw [List.mem_singleton] at hb
    subst hb
    rcases List.mem_map.mp ha with ⟨p, hp, hpa⟩
    exact hin (List.any_eq_true.mpr ⟨p, hp, by simp [hpa]⟩)

theorem countOcc_go (ws : List String) (acc : List (String × Nat))
    (k : String → Nat)
    (hnd : (acc.map Prod.fst).Nodup)
    (hk : ∀ p ∈ acc, p.2 = k p.1)
    (hk0 : ∀ x, x ∉ acc.map Prod.fst → k x = 0) :
    ∀ p ∈ ws.foldl bumpCount acc, p.2 = k p.1 + ws.count p.1 := by
  induction ws generalizing acc k with
  | nil =>
    intro p hp
    simpa using hk p hp
  | cons w ws ih =>
    intro p hp
    rw [List.foldl_cons] at hp
    have hstep := ih (bumpCount acc w)
      (fun x => if x = w then k x + 1 else k x)
      (bumpCount_nodup acc w hnd) ?_ ?_ p hp
    · rw [hstep]
      show (if p.1 = w then k p.1 + 1 else k p.1) + List.count p.1 ws
          = k p.1 + List.count p.1 (w :: ws)
      rw [List.count_cons]
      by_cases hpw : p.1 = w
      · simp only [hpw, eq_self_iff_true, ite_true, if_true, beq_self_eq_true]
        omega
      · have h2 : ¬(w = p.1) := fun e => hpw e.symm
        simp only [if_neg hpw, beq_iff_eq, if_neg h2]
        omega
    · intro q hq
      unfold bumpCount at hq
      by_cases hin : acc.any (fun p => p.1 = w)
      · rw [if_pos hin] at hq
        rcases List.mem_map.mp hq with ⟨q0, hq0, rfl⟩
        by_cases hqw : q0.1 = w <;> simp [hqw, hk q0 hq0]
      · rw [if_neg hin] at hq
        rcases List.mem_append.mp hq with hq1 | hq2
        · have hval := hk q hq1
          by_cases hqw : q.1 = w
          · exfalso
            exact hin (List.any_eq_true.mpr ⟨q, hq1, by simp [hqw]⟩)
          · show q.2 = if q.1 = w then k q.1 + 1 else k q.1
            rw [if_neg hqw]
            exact hval
        · rw [List.mem_singleton] at hq2
          subst hq2
          have hw : w ∉ acc.map Prod.fst := by
            intro hmem
            rcases List.mem_map.mp hmem with ⟨q0, hq0, hqa⟩
            exact hin (List.any_eq_true.mpr ⟨q0, hq0, by simp [hqa]⟩)
          show (1 : Nat) = if w = w then k w + 1 else k w
          rw [if_pos rfl, hk0 w hw]
    · intro x hx
      rw [bumpCount_keys] at hx
      by_cases hin : acc.any (fun p => p.1 = w)
      · rw [if_pos hin] at hx
        have hxw : x ≠ w := by
          intro e
          subst e
          rcases List.any_eq_true.mp hin with ⟨q, hq, hqx⟩
          exact hx (List.mem_map.mpr ⟨q, hq, of_decide_eq_true hqx⟩)
        show (if x = w then k x + 1 else k x) = 0
        rw [if_neg hxw]
        exact hk0 x hx
      · rw [if_neg hin, List.mem_append] at hx
        push_neg at hx
        have hxw : x ≠ w := by
          intro e
          exact hx.2 (by simp [e])
        show (if x = w then k x + 1 else k x) = 0
        rw [if_neg hxw]
        exact hk0 x hx.1

theorem countOcc_count (ws : List String) :
    ∀ p ∈ countOcc ws, p.2 = ws.count p.1 := by
  intro p hp
  have := countOcc_go ws [] (fun _ => 0) (by simp) (by simp) (fun _ _ => rfl) p hp
  simpa using this

-- ── C7: theme detection ──

/-- Claim C7's reading of theme ranking: rank **all** qualifying terms
(non-stop-word, count ≥ 5) by count descending and keep the top 15
(spec-side definition for comparison; the code instead pre-truncates to
the 50 most frequent raw terms before filtering). -/
def specThemes (speakers : List Speaker) : List Theme :=
  let word_freq := countOcc (tokensMin 4 (corpusText speakers))
  (((stableSortBy (fun a b => b.2 ≤ a.2) word_freq).filter fun wc =>
      !stop_words.contains wc.1 && 5 ≤ wc.2).map fun wc =>
    Theme.mk wc.1 wc.2).take 15

def fillerWords : List String :=
  ["alpha","bravo","charlie","delta","foxtrot","golfs","hotel","india",
   "juliet","kilos","limas","mikes","november","oscar"]

/-- The token list of the `C7` corpus: the 36 stop words and 14 filler
words five times each, then `zulu` five times. -/
def cexWords7 : List String :=
  (((stop_words ++ fillerWords).map fun w => List.replicate 5 w).flatten)
    ++ List.replicate 5 "zulu"

/-- A corpus whose 50 most frequent terms are the 36 stop words and 14
filler words (5 occurrences each, encountered first), with a 51st
qualifying term `zulu` (5 occurrences, encountered last). -/
def cexText7 : String := joinSp cexWords7

def cexSpeakers7 : List Speaker :=
  [{ name := "S", passages := [⟨"S", cexText7, 0, "", []⟩] }]

/-- The 51 distinct words of the `C7` corpus. -/
def wordsBase7 : List String := (stop_words ++ fillerWords) ++ ["zulu"]

/-- The insertion-ordered word counts of the `C7` corpus. -/
def cexCounts7 : List (String × Nat) :=
  (stop_words ++ fillerWords).map (fun w => (w, 5)) ++ [("zulu", 5)]

theorem interC_single (x : Char) (l : List Char) : [x].intercalate [l] = l := by
  simp [List.intercalate]

theorem interC_cons (x : Char) (a b : List Char) (L : List (List Char)) :
    [x].intercalate (a :: b :: L) = a ++ x :: [x].intercalate (b :: L) := by
  simp [List.intercalate]

theorem isWordCh_of_lower (c : Char) (h : isLowerCh c = true) :
    isWordCh c = true := by
  unfold isWordCh isAlphaCh
  rw [h]
  simp

theorem filter_ne_nil_keep (a : List Char) (l : List (List Char))
    (ha : a ≠ []) :
    (a :: l).filter (· ≠ []) = a :: l.filter (· ≠ []) := by
  simp [List.filter_cons, ha]

/-- Splitting a space-joined list of nonempty all-word-character chunks
on non-word characters recovers exactly the chunks. -/
theorem wordRunsL_inter (ws : List (List Char))
    (h : ∀ w ∈ ws, w ≠ [] ∧ ∀ c ∈ w, isWordCh c = true) :
    wordRunsL ([' '].intercalate ws) = ws := by
  induction ws with
  | nil => rfl
  | cons a tl ih =>
    cases tl with
    | nil =>
      rw [interC_single]
      unfold wordRunsL
      rw [List.splitOnP_eq_single (fun c => !isWordCh c) a ?ha1]
      case ha1 =>
        intro x hx hpx
        have hpx' : (!isWordCh x) = true := hpx
        rw [(h a (by simp)).2 x hx] at hpx'
        exact absurd hpx' (by simp)
      rw [filter_ne_nil_keep a [] (h a (by simp)).1]
      rfl
    | cons b tl' =>
      rw [interC_cons]
      unfold wordRunsL
      rw [List.splitOnP_first (fun c => !isWordCh c) a ?ha2 ' ' (by decide)
        ([' '].intercalate (b :: tl'))]
      case ha2 =>
        intro x hx hpx
        have hpx' : (!isWordCh x) = true := hpx
        rw [(h a (by simp)).2 x hx] at hpx'
        exact absurd hpx' (by simp)
      rw [filter_ne_nil_keep a _ (h a (by simp)).1]
      show a :: wordRunsL ([' '].intercalate (b :: tl')) = a :: b :: tl'
      rw [ih (fun w hw => h w (List.mem_cons_of_mem a hw))]

/-- Tokenising a space-joined list of nonempty all-lowercase words of
length at least `n` recovers exactly the words. -/
theorem tokensMin_inter (n : Nat) (ws : List String)
    (h : ∀ w ∈ ws, w.data ≠ [] ∧ ∀ c ∈ w.data, isLowerCh c = true)
    (hlen : ∀ w ∈ ws, n ≤ w.data.length) :
    tokensMin n (joinSp ws) = ws := by
  unfold tokensMin
  rw [show (joinSp ws).data = [' '].intercalate (ws.map String.data) from rfl]
  rw [wordRunsL_inter (ws.map String.data) ?hclean]
  case hclean =>
    intro w hw
    rcases List.mem_map.mp hw with ⟨s, hs, rfl⟩
    exact ⟨(h s hs).1, fun c hc => isWordCh_of_lower c ((h s hs).2 c hc)⟩
  rw [List.filter_eq_self.mpr ?hkeep]
  case hkeep =>
    intro w hw
    rcases List.mem_map.mp hw with ⟨s, hs, rfl⟩
    rw [Bool.and_eq_true]
    exact ⟨List.all_eq_true.mpr (fun c hc => (h s hs).2 c hc),
      decide_eq_true (hlen s hs)⟩
  rw [List.map_map]
  exact List.map_id' ws

theorem map_inter_lower (L : List (List Char)) :
    ([' '].intercalate L).map lowerCh
      = [' '].intercalate (L.map (List.map lowerCh)) := by
  induction L with
  | nil => rfl
  | cons a tl ih =>
    cases tl with
    | nil =>
      rw [List.map_cons, List.map_nil, interC_single, interC_single]
    | cons b tl' =>
      rw [interC_cons, List.map_append, List.map_cons, ih]
      rw [show (a :: b :: tl').map (List.map lowerCh)
          = a.map lowerCh :: b.map lowerCh :: tl'.map (List.map lowerCh)
        from rfl]
      rw [interC_cons]
      rfl

theorem lowerStr_joinSp (ws : List String) :
    lowerStr (joinSp ws) = joinSp (ws.map lowerStr) := by
  show (⟨([' '].intercalate (ws.map String.data)).map lowerCh⟩ : String)
      = ⟨[' '].intercalate ((ws.map lowerStr).map String.data)⟩
  rw [map_inter_lower, List.map_map, List.map_map]
  rfl

theorem joinSp_single (t : String) : joinSp [t] = t := by
  show (⟨[' '].intercalate [t.data]⟩ : String) = t
  rw [interC_single]

theorem mem_cexWords7 (w : String) (hw : w ∈ cexWords7) : w ∈ wordsBase7 := by
  unfold cexWords7 at hw
  unfold wordsBase7
  rcases List.mem_append.mp hw with h | h
  · rcases List.mem_flatten.mp h with ⟨l, hl, hwl⟩
    rcases List.mem_map.mp hl with ⟨x, hx, rfl⟩
    rw [List.eq_of_mem_replicate hwl]
    exact List.mem_append_left _ hx
  · rw [List.eq_of_mem_replicate h]
    simp

theorem cexWords7_map_lower : cexWords7.map lowerStr = cexWords7 := by
  have hbase : ∀ w ∈ wordsBase7, lowerStr w = w := by decide
  have he : cexWords7.map lowerStr = cexWords7.map (fun w => w) :=
    List.map_congr_left (fun a ha => hbase a (mem_cexWords7 a ha))
  rw [he, List.map_id']

theorem cexCorpus7_eval : corpusText cexSpeakers7 = joinSp cexWords7 := by
  show lowerStr (joinSp [cexText7]) = joinSp cexWords7
  rw [joinSp_single]
  show lowerStr (joinSp cexWords7) = joinSp cexWords7
  rw [lowerStr_joinSp, cexWords7_map_lower]

theorem cexTokens7_eval :
    tokensMin 4 (corpusText cexSpeakers7) = cexWords7 := by
  rw [cexCorpus7_eval]
  have hbase : ∀ w ∈ wordsBase7,
      (w.data ≠ [] ∧ ∀ c ∈ w.data, isLowerCh c = true)
        ∧ 4 ≤ w.data.length := by
    decide
  exact tokensMin_inter 4 cexWords7
    (fun w hw => (hbase w (mem_cexWords7 w hw)).1)
    (fun w hw => (hbase w (mem_cexWords7 w hw)).2)

theorem cexCounts7_eval : countOcc cexWords7 = cexCounts7 := by decide

set_option maxHeartbeats 2000000 in
/-- C7 (counterexample): `zulu` is a non-stop-word term with count 5
that would rank 15th among the qualifying terms, yet `detect_themes`
omits it — the code truncates to the raw top 50 (here: 36 stop words
plus 14 fillers) before the stop-word/threshold filter runs. -/
theorem C7_counterexample :
    (detect_themes cexSpeakers7).map (·.theme) = fillerWords ∧
    (specThemes cexSpeakers7).map (·.theme) = fillerWords ++ ["zulu"] ∧
    "zulu" ∉ (detect_themes cexSpeakers7).map (·.theme) ∧
    "zulu" ∈ (specThemes cexSpeakers7).map (·.theme) := by
  have h1 : (detect_themes cexSpeakers7).map (·.theme) = fillerWords := by
    simp only [detect_themes]
    rw [cexTokens7_eval, cexCounts7_eval]
    decide
  have h2 : (specThemes cexSpeakers7).map (·.theme)
      = fillerWords ++ ["zulu"] := by
    simp only [specThemes]
    rw [cexTokens7_eval, cexCounts7_eval]
    decide
  refine ⟨h1, h2, ?_, ?_⟩
  · rw [h1]; decide
  · rw [h2]; decide

/-- C7 (amended): `detect_themes` returns at most 15 themes, drawn from
the 50 most frequent raw terms; every returned theme is a
non-stop-word whose recorded frequency is its true corpus count and is
at least 5, and the list is ranked by descending count.  A qualifying
term outside the raw top 50 can be omitted. -/
theorem C7_themes (speakers : List Speaker) :
    (detect_themes speakers).length ≤ 15 ∧
    (∀ t ∈ detect_themes speakers,
      t.theme ∉ stop_words ∧ 5 ≤ t.frequency ∧
      t.frequency = (tokensMin 4 (corpusText speakers)).count t.theme) ∧
    (detect_themes speakers).Pairwise
      (fun t₁ t₂ => t₂.frequency ≤ t₁.frequency) := by
  refine ⟨?_, ?_, ?_⟩
  · unfold detect_themes
    simp [List.length_take]
  · intro t ht
    unfold detect_themes at ht
    have ht2 := List.mem_of_mem_take ht
    rcases List.mem_map.mp ht2 with ⟨wc, hwc, rfl⟩
    rw [List.mem_filter] at hwc
    have hq := hwc.2
    rw [Bool.and_eq_true] at hq
    have hmem : wc ∈ countOcc (tokensMin 4 (corpusText speakers)) := by
      have := List.mem_of_mem_take hwc.1
      exact (mem_stableSortBy _ _ _).mp this
    refine ⟨?_, by simpa using hq.2, ?_⟩
    · intro hstop
      have : stop_words.contains wc.1 = true := by
        exact List.elem_eq_true_of_mem hstop
      rw [this] at hq
      simp at hq
    · exact countOcc_count _ wc hmem
  · unfold detect_themes
    apply List.Pairwise.sublist (List.take_sublist _ _)
    rw [List.pairwise_map]
    apply List.Pairwise.filter
    apply List.Pairwise.sublist (List.take_sublist _ _)
    exact stableSortBy_pairwise
      (fun a b : String × Nat => decide (b.2 ≤ a.2))
      (fun a b : String × Nat => b.2 ≤ a.2)
      (fun x y h => of_decide_eq_true h)
      (fun x y h => le_of_not_le (of_decide_eq_false h))
      (fun x y z h1 h2 => le_trans h2 h1) _

-- ── C8: tension detection ──

theorem tensionPairs_mem (sps : List Speaker) :
    ∀ p ∈ tensionPairs sps, p.1 ∈ sps ∧ p.2 ∈ sps := by
  induction sps with
  | nil => simp [tensionPairs]
  | cons s rest ih =>
    intro p hp
    unfold tensionPairs at hp
    rcases List.mem_append.mp hp with h1 | h2
    · rcases List.mem_map.mp h1 with ⟨s2, hs2, rfl⟩
      exact ⟨by simp, by simp [hs2]⟩
    · have := ih p h2
      exact ⟨by simp [this.1], by simp [this.2]⟩

theorem tensionPairs_names (sps : List Speaker)
    (hnd : (sps.map fun s => s.name).Nodup) :
    ∀ p ∈ tensionPairs sps, p.1.name ≠ p.2.name := by
  induction sps with
  | nil => simp [tensionPairs]
  | cons s rest ih =>
    rw [List.map_cons, List.nodup_cons] at hnd
    intro p hp
    unfold tensionPairs at hp
    rcases List.mem_append.mp hp with h1 | h2
    · rcases List.mem_map.mp h1 with ⟨s2, hs2, rfl⟩
      intro he
      exact hnd.1 (he ▸ List.mem_map_of_mem (fun s => s.name) hs2)
    · exact ih hnd.2 p h2

theorem tensionPairs_pairwise (sps : List Speaker)
    (hnd : (sps.map fun s => s.name).Nodup) :
    (tensionPairs sps).Pairwise (fun p q =>
      ¬(p.1.name = q.1.name ∧ p.2.name = q.2.name) ∧
      ¬(p.1.name = q.2.name ∧ p.2.name = q.1.name)) := by
  induction sps with
  | nil => simp [tensionPairs]
  | cons s rest ih =>
    rw [List.map_cons, List.nodup_cons] at hnd
    have hs : s.name ∉ rest.map fun x => x.name := hnd.1
    unfold tensionPairs
    rw [List.pairwise_append]
    refine ⟨?_, ih hnd.2, ?_⟩
    · rw [List.pairwise_map]
      have hrest : rest.Pairwise (fun a b => a.name ≠ b.name) :=
        List.pairwise_map.mp hnd.2
      apply List.Pairwise.imp_of_mem ?_ hrest
      intro a b ha hb hab
      refine ⟨fun h => hab h.2, fun h => ?_⟩
      apply hs
      rw [h.1]
      exact List.mem_map_of_mem (fun x => x.name) hb
    · intro p hp q hq
      rcases List.mem_map.mp hp with ⟨s2, hs2, rfl⟩
      have hq12 := tensionPairs_mem rest q hq
      constructor
      · intro h
        exact hs (h.1 ▸ List.mem_map_of_mem (fun x => x.name) hq12.1)
      · intro h
        exact hs (h.1 ▸ List.mem_map_of_mem (fun x => x.name) hq12.2)

/-- C8: `detect_tensions` emits, for speaker pairs in enumeration
order, exactly the records of pairs whose contrast-marker sum reaches
3, records that sum, and (when speaker names are distinct) never emits
two records for the same unordered pair — in particular `[A, B]` and
`[B, A]` never both appear. -/
theorem C8_tensions (sps : List Speaker)
    (hnd : (sps.map fun s => s.name).Nodup) :
    (∀ t ∈ detect_tensions sps,
      t.note = tensionNote ∧
      ∃ s1 ∈ sps, ∃ s2 ∈ sps, s1.name ≠ s2.name ∧
        t.speakers = [s1.name, s2.name] ∧
        t.contrast_signals = contrastCount s1 + contrastCount s2 ∧
        3 ≤ contrastCount s1 + contrastCount s2) ∧
    (∀ p ∈ tensionPairs sps, 3 ≤ contrastCount p.1 + contrastCount p.2 →
      (⟨[p.1.name, p.2.name], contrastCount p.1 + contrastCount p.2,
        tensionNote⟩ : Tension) ∈ detect_tensions sps) ∧
    (detect_tensions sps).Pairwise (fun t₁ t₂ =>
      t₁.speakers ≠ t₂.speakers ∧ t₁.speakers ≠ t₂.speakers.reverse) := by
  refine ⟨?_, ?_, ?_⟩
  · intro t ht
    unfold detect_tensions at ht
    rcases List.mem_filterMap.mp ht with ⟨p, hp, hf⟩
    by_cases hc : 3 ≤ contrastCount p.1 + contrastCount p.2
    · rw [if_pos hc] at hf
      have ht2 := (Option.some.injEq _ _).mp hf
      subst ht2
      have hmem := tensionPairs_mem sps p hp
      exact ⟨rfl, p.1, hmem.1, p.2, hmem.2,
        tensionPairs_names sps hnd p hp, rfl, rfl, hc⟩
    · rw [if_neg hc] at hf
      exact absurd hf (by simp)
  · intro p hp hc
    unfold detect_tensions
    exact List.mem_filterMap.mpr ⟨p, hp, by rw [if_pos hc]⟩
  · unfold detect_tensions
    apply List.Pairwise.filterMap _ ?_ (tensionPairs_pairwise sps hnd)
    intro p q hpq x hx y hy
    have hxp : x = ⟨[p.1.name, p.2.name],
        contrastCount p.1 + contrastCount p.2, tensionNote⟩ := by
      by_cases hc : 3 ≤ contrastCount p.1 + contrastCount p.2
      · rw [if_pos hc] at hx; simpa using hx.symm
      · rw [if_neg hc] at hx; simp at hx
    have hyq : y = ⟨[q.1.name, q.2.name],
        contrastCount q.1 + contrastCount q.2, tensionNote⟩ := by
      by_cases hc : 3 ≤ contrastCount q.1 + contrastCount q.2
      · rw [if_pos hc] at hy; simpa using hy.symm
      · rw [if_neg hc] at hy; simp at hy
    subst hxp hyq
    constructor
    · intro h
      simp only [Tension.mk.injEq] at h ⊢
      rw [List.cons.injEq, List.cons.injEq] at h
      exact hpq.1 ⟨h.1, h.2.1⟩
    · intro h
      simp only [Tension.mk.injEq] at h
      rw [show ([q.1.name, q.2.name] : List String).reverse
          = [q.2.name, q.1.name] by rfl] at h
      rw [List.cons.injEq, List.cons.injEq] at h
      exact hpq.2 ⟨h.1, h.2.1⟩

def cexSps8 : List Speaker :=
  [{ name := "A", passages :=
      [⟨"A", "I disagree. However, I would argue otherwise.", 0, "", []⟩] },
   { name := "B", passages := [⟨"B", "Nice weather today.", 0, "", []⟩] }]

/-- C8 witness: the tension contract instantiated at two concrete
speakers with distinct names. -/
theorem C8_witness :
    ((cexSps8.map fun s => s.name).Nodup) ∧
    (detect_tensions cexSps8).Pairwise (fun t₁ t₂ =>
      t₁.speakers ≠ t₂.speakers ∧ t₁.speakers ≠ t₂.speakers.reverse) :=
  ⟨by decide, (C8_tensions cexSps8 (by decide)).2.2⟩

-- ── C9: query routing bounds and ordering ──

theorem passageScores_snd (qws : List String) (sp : Speaker) :
    ∀ x ∈ passageScores qws sp, x.2 = passageOverlap qws x.1 := by
  intro x hx
  rcases List.mem_filterMap.mp hx with ⟨p, _, hf⟩
  by_cases hc : (1 : ℚ)/10 < passageOverlap qws p
  · simp only [if_pos hc] at hf
    cases hf
    rfl
  · simp only [if_neg hc] at hf
    exact absurd hf (by simp)

theorem speakerResult_shape (qws : List String) (target : Option String)
    (sp : Speaker) (r : Speaker × ℚ × List Passage)
    (h : speakerResult qws target sp = some r) :
    r.2.2.length ≤ 3 ∧
    r.2.2.Pairwise (fun p₁ p₂ =>
      passageOverlap qws p₂ ≤ passageOverlap qws p₁) := by
  unfold speakerResult at h
  by_cases hskip : speakerSkipped target sp.name
  · rw [if_pos hskip] at h
    exact absurd h (by simp)
  · rw [if_neg hskip] at h
    cases hs : stableSortBy (fun a b => b.2 ≤ a.2) (passageScores qws sp) with
    | nil => rw [hs] at h; exact absurd h (by simp)
    | cons top rest =>
      rw [hs] at h
      have hr := (Option.some.injEq _ _).mp h
      subst hr
      constructor
      · simp [List.length_take]
      · have hsorted : (top :: rest).Pairwise
            (fun a b : Passage × ℚ => b.2 ≤ a.2) := by
          rw [← hs]
          exact stableSortBy_pairwise
            (fun a b : Passage × ℚ => decide (b.2 ≤ a.2))
            (fun a b : Passage × ℚ => b.2 ≤ a.2)
            (fun x y h => of_decide_eq_true h)
            (fun x y h => le_of_not_le (of_decide_eq_false h))
            (fun x y z h1 h2 => le_trans h2 h1) _
        have hmem : ∀ x ∈ (top :: rest), x.2 = passageOverlap qws x.1 := by
          intro x hx
          apply passageScores_snd qws sp
          rw [← mem_stableSortBy (fun a b : Passage × ℚ => b.2 ≤ a.2)
            (passageScores qws sp) x, hs]
          exact hx
        have htake := hsorted.sublist (List.take_sublist 3 _)
        rw [List.pairwise_map]
        apply List.Pairwise.imp_of_mem ?_ htake
        intro a b ha hb hab
        have ha2 := hmem a (List.mem_of_mem_take ha)
        have hb2 := hmem b (List.mem_of_mem_take hb)
        rw [← ha2, ← hb2]
        exact hab

/-- C9: `route_question` returns at most 3 speakers, each with at most
3 passages, and each speaker's passage list is ordered by descending
word-overlap score with the question. -/
theorem C9_route (question : String) (mind : ConferenceMind)
    (target : Option String) :
    (route_question question mind target).length ≤ 3 ∧
    ∀ r ∈ route_question question mind target,
      r.2.2.length ≤ 3 ∧
      r.2.2.Pairwise (fun p₁ p₂ =>
        passageOverlap (questionWords question) p₂
          ≤ passageOverlap (questionWords question) p₁) := by
  constructor
  · unfold route_question
    simp [List.length_take]
  · intro r hr
    unfold route_question at hr
    have hr2 := List.mem_of_mem_take hr
    rw [mem_stableSortBy] at hr2
    rcases List.mem_filterMap.mp hr2 with ⟨sp, _, hf⟩
    exact speakerResult_shape _ target sp r hf

-- ── C10: empty-token questions route nowhere ──

theorem passageOverlap_empty (p : Passage) :
    passageOverlap [] p = 0 := by
  unfold passageOverlap
  simp

theorem passageScores_empty (sp : Speaker) :
    passageScores [] sp = [] := by
  unfold passageScores
  apply List.filterMap_eq_nil.mpr
  intro p _
  rw [show passageOverlap [] p = 0 from passageOverlap_empty p]
  norm_num

/-- C10: a question with no alphabetic word of at least 3 letters (its
token set is empty) routes to no speaker at all, and the renderer then
produces the fixed no-relevant-content message. -/
theorem C10_empty_question (question : String) (mind : ConferenceMind)
    (target : Option String)
    (h : questionWords question = []) :
    route_question question mind target = [] ∧
    format_response (route_question question mind target) question
      = "No speakers found with relevant content for this question." := by
  have hroute : route_question question mind target = [] := by
    unfold route_question
    rw [h]
    have hres : mind.speakers.filterMap (speakerResult [] target) = [] := by
      apply List.filterMap_eq_nil.mpr
      intro sp _
      unfold speakerResult
      by_cases hskip : speakerSkipped target sp.name
      · rw [if_pos hskip]
      · rw [if_neg hskip, passageScores_empty]
        rfl
    rw [hres]
    rfl
  refine ⟨hroute, ?_⟩
  rw [hroute]
  rfl

def cexMind10 : ConferenceMind :=
  { name := "C",
    speakers := [{ name := "A",
                   passages := [⟨"A", "kubernetes is great", 0, "", []⟩] }] }

/-- C10 witness: instantiated at a punctuation-only question against a
concrete one-speaker mind. -/
theorem C10_witness :
    questionWords "?!" = [] ∧
    route_question "?!" cexMind10 none = [] :=
  ⟨by decide, (C10_empty_question "?!" cexMind10 none (by decide)).1⟩

-- ── C1: blank-input ingest ──

theorem detect_format_blank (t : String) (h : pyStrip t = "") :
    detect_format t = "raw" := by
  unfold detect_format
  rw [h]
  rfl

theorem clean_blank (t : String) (h : pyStrip t = "") :
    clean_transcript t (detect_format t) = "" := by
  rw [detect_format_blank t h]
  show cleanRaw t = ""
  unfold cleanRaw cleanFilterL
  rw [h]
  rfl

/-- C1 (counterexample): the core `ingest` does not reject a
whitespace-only transcript — every pipeline stage runs on it and the
(empty) conference is saved to the store. -/
theorem C1_counterexample :
    (ingest "   " "C" "" "t0" "t0s" []).1.speakers = [] ∧
    (ingest "   " "C" "" "t0" "t0s" []).1.clean_transcript = "" ∧
    (storeGet (ingest "   " "C" "" "t0" "t0s" []).2 (slugify "C")).isSome
      = true := by
  refine ⟨by decide, by decide, by decide⟩

/-- C1 (amended): rejection of blank transcripts happens in the CLI and
tool-server wrappers, not in the core `ingest`: a blank or
whitespace-only transcript flows through format detection, cleaning,
extraction and analysis, yielding a mind with no speakers, no themes
and no tensions, which is then saved. -/
theorem C1_blank_ingest (transcript nameArg src now nowShort : String)
    (st : Store) (h : pyStrip transcript = "") :
    (ingest transcript nameArg src now nowShort st).1.speakers = [] ∧
    (ingest transcript nameArg src now nowShort st).1.themes = [] ∧
    (ingest transcript nameArg src now nowShort st).1.tensions = [] ∧
    (ingest transcript nameArg src now nowShort st).1.clean_transcript = "" ∧
    (ingest transcript nameArg src now nowShort st).2
      = save_mind st (ingest transcript nameArg src now nowShort st).1 := by
  have hclean := clean_blank transcript h
  simp only [ingest]
  rw [hclean]
  refine ⟨rfl, rfl, rfl, rfl, ?_⟩
  trivial

/-- C1 witness: the amended statement instantiated at a concrete
whitespace-only transcript. -/
theorem C1_witness :
    pyStrip "   " = "" ∧
    (ingest "   " "C" "" "t0" "t0s" []).1.themes = [] :=
  ⟨by decide, (C1_blank_ingest "   " "C" "" "t0" "t0s" [] (by decide)).2.1⟩

-- ── C3: load of absent or damaged state ──

/-- C3 (counterexample): a storage location that exists but has no
metadata record makes `load_mind` raise (the unconditional `meta.json`
read), instead of reporting the conference as absent. -/
theorem C3_counterexample :
    load_mind [("x", { rawFile := some "hello" })] "x" = .error () := rfl

/-- C3 (amended): a name whose slug has no storage location is reported
absent (never an error); in an existing location with a metadata
record, missing transcripts and a missing speakers directory degrade to
empty fields; but an existing location *without* a metadata record is
an error, not absence. -/
theorem C3_load_absent (st : Store) (name : String) :
    (storeGet st (slugify name) = none → load_mind st name = .ok none) ∧
    (∀ d, storeGet st (slugify name) = some d → d.metaFile = none →
      load_mind st name = .error ()) ∧
    (∀ d m, storeGet st (slugify name) = some d → d.metaFile = some m →
      d.rawFile = none → d.cleanFile = none → d.speakersDir = none →
      load_mind st name = .ok (some
        { name := m.name
          created := m.created
          source_file := m.source_file
          themes := m.themes
          tensions := m.tensions
          raw_transcript := ""
          clean_transcript := ""
          speakers := [] })) := by
  refine ⟨?_, ?_, ?_⟩
  · intro h
    simp only [load_mind, h]
  · intro d hd hm
    simp only [load_mind, hd, hm]
  · intro d m hd hm hraw hclean hsd
    simp only [load_mind, hd, hm, hraw, hclean, hsd, Option.getD_none]

/-- C3 witness: the absent branch of the amended statement at a
concrete empty store. -/
theorem C3_witness :
    storeGet ([] : Store) (slugify "missing") = none ∧
    load_mind ([] : Store) "missing" = .ok none :=
  ⟨by decide, (C3_load_absent [] "missing").1 (by decide)⟩

-- ── C2: save/load round trip ──

theorem assocGet_none {β : Type} (st : List (String × β)) (k : String)
    (h : st.any (fun p => p.1 = k) = false) : assocGet st k = none := by
  induction st with
  | nil => rfl
  | cons hd tl ih =>
    rw [List.any_cons, Bool.or_eq_false_iff] at h
    unfold assocGet
    rw [List.find?_cons_of_neg _ (by simpa using h.1)]
    exact ih h.2

theorem assocGet_set_present {β : Type} (st : List (String × β))
    (k : String) (v : β) (hin : st.any (fun p => p.1 = k) = true) :
    assocGet (st.map fun p => if p.1 = k then (k, v) else p) k = some v := by
  induction st with
  | nil => simp at hin
  | cons hd tl ih =>
    rw [List.map_cons]
    by_cases hk : hd.1 = k
    · rw [if_pos hk]
      unfold assocGet
      rw [List.find?_cons_of_pos _ (by simp)]
      rfl
    · rw [if_neg hk]
      unfold assocGet at ih ⊢
      rw [List.find?_cons_of_neg _ (by simpa using hk)]
      apply ih
      rw [List.any_cons, Bool.or_eq_true_iff] at hin
      rcases hin with h1 | h2
      · exact absurd (of_decide_eq_true h1) hk
      · exact h2

theorem assocGet_append_new {β : Type} (st : List (String × β))
    (k : String) (v : β) (hout : st.any (fun p => p.1 = k) = false) :
    assocGet (st ++ [(k, v)]) k = some v := by
  induction st with
  | nil =>
    unfold assocGet
    rw [List.nil_append, List.find?_cons_of_pos _ (by simp)]
    rfl
  | cons hd tl ih =>
    rw [List.any_cons, Bool.or_eq_false_iff] at hout
    unfold assocGet at ih ⊢
    rw [List.cons_append, List.find?_cons_of_neg _ (by simpa using hout.1)]
    exact ih hout.2

theorem assocGet_assocSet {β : Type} (st : List (String × β))
    (k : String) (v : β) : assocGet (assocSet st k v) k = some v := by
  unfold assocSet
  by_cases hin : st.any (fun p => p.1 = k)
  · rw [if_pos hin]
    exact assocGet_set_present st k v hin
  · rw [if_neg hin]
    exact assocGet_append_new st k v ((Bool.not_eq_true _) ▸ hin)

theorem speakerFold_disjoint (sps : List Speaker)
    (sd : List (String × SpeakerFiles))
    (hnd : (sps.map fun s => slugify s.name).Nodup)
    (hdisj : ∀ sp ∈ sps, sd.any (fun p => p.1 = slugify sp.name) = false) :
    sps.foldl speakerStep sd
      = sd ++ sps.map fun sp => (slugify sp.name, speakerFilesOf sp {}) := by
  induction sps generalizing sd with
  | nil => simp
  | cons sp rest ih =>
    rw [List.map_cons, List.nodup_cons] at hnd
    rw [List.foldl_cons]
    have hout := hdisj sp (by simp)
    have hget : dirGet sd (slugify sp.name) = none := assocGet_none _ _ hout
    have hstep : speakerStep sd sp
        = sd ++ [(slugify sp.name, speakerFilesOf sp {})] := by
      simp only [speakerStep]
      rw [show dirGet sd (slugify sp.name) = none from hget]
      unfold dirSet assocSet
      rw [if_neg (by simp [hout])]
      rfl
    rw [hstep,
      ih (sd ++ [(slugify sp.name, speakerFilesOf sp {})]) hnd.2 ?_]
    · rw [List.append_assoc]
      rfl
    · intro q hq
      rw [List.any_append, Bool.or_eq_false_iff]
      refine ⟨hdisj q (by simp [hq]), ?_⟩
      simp only [List.any_cons, List.any_nil, Bool.or_false]
      have hne : slugify sp.name ≠ slugify q.name := by
        intro e
        exact hnd.1 (by
          rw [e]
          exact List.mem_map_of_mem (fun s => slugify s.name) hq)
      simpa using fun e : slugify sp.name = slugify q.name => hne e

theorem insertBefore_map {α β : Type} (r : α → α → Bool) (r' : β → β → Bool)
    (f : α → β) (hr : ∀ a b, r' (f a) (f b) = r a b) (a : α) (l : List α) :
    insertBefore r' (f a) (l.map f) = (insertBefore r a l).map f := by
  induction l with
  | nil => rfl
  | cons b l ih =>
    rw [List.map_cons]
    unfold insertBefore
    rw [hr a b]
    by_cases h : r a b
    · rw [if_pos h, if_pos h, List.map_cons, List.map_cons]
    · rw [if_neg h, if_neg h, List.map_cons, ih]

theorem stableSortBy_map {α β : Type} (r : α → α → Bool) (r' : β → β → Bool)
    (f : α → β) (hr : ∀ a b, r' (f a) (f b) = r a b) (l : List α) :
    stableSortBy r' (l.map f) = (stableSortBy r l).map f := by
  induction l with
  | nil => rfl
  | cons a l ih =>
    rw [List.map_cons]
    unfold stableSortBy
    rw [ih]
    exact insertBefore_map r r' f hr a (stableSortBy r l)

def cexIngest2 : ConferenceMind × Store :=
  ingest "Alice: kubernetes docker kubernetes cloud kubernetes." "C" ""
    "t0" "t0s" []

/-- The speakers of a successfully loaded mind (empty otherwise). -/
def loadedSpeakers (e : Except Unit (Option ConferenceMind)) : List Speaker :=
  match e with
  | .ok (some m) => m.speakers
  | _ => []

/-- C2 (counterexample): for a mind produced by `ingest` whose single
speaker careies a computed skill list and style profile, saving and
re-loading returns a speaker with an *empty* skill list and the style
profile replaced by a raw document — not the speakers that were
saved. -/
theorem C2_counterexample :
    (loadedSpeakers (load_mind (save_mind cexIngest2.2 cexIngest2.1) "C")).map
        (fun s => s.skills) = [[]] ∧
    (cexIngest2.1.speakers.map fun s => s.skills)
      = [[⟨"Infrastructure", "moderate", 5⟩]] ∧
    loadedSpeakers (load_mind (save_mind cexIngest2.2 cexIngest2.1) "C")
      ≠ cexIngest2.1.speakers := by
  refine ⟨by decide, by decide, by decide⟩

/-- C2 (amended): saving a fresh mind and loading it back reproduces
the metadata, transcripts, themes, tensions and the ordered per-speaker
passage lists; but the speakers come back sorted by slug with
title-cased names, their style profiles are loaded as raw documents,
and their skill lists are left empty rather than reconstructed. -/
theorem C2_roundtrip (st : Store) (mind : ConferenceMind)
    (hfresh : storeGet st (slugify mind.name) = none)
    (hnd : (mind.speakers.map fun s => slugify s.name).Nodup) :
    load_mind (save_mind st mind) mind.name
      = .ok (some
        { name := mind.name
          created := mind.created
          source_file := mind.source_file
          themes := mind.themes
          tensions := mind.tensions
          raw_transcript := mind.raw_transcript
          clean_transcript := mind.clean_transcript
          speakers := (stableSortBy
              (fun a b => strLe (slugify a.name) (slugify b.name))
              mind.speakers).map fun sp =>
            { name := titleCase (dashToSpace (slugify sp.name))
              passages := sp.passages
              soul := .raw (soulMd sp) } }) := by
  simp only [save_mind, storeGet, storeSet] at hfresh ⊢
  rw [hfresh]
  simp only [Option.getD_none]
  cases hsps : mind.speakers with
  | nil =>
    simp only [load_mind, storeGet]
    rw [assocGet_assocSet]
    rfl
  | cons s ss =>
    rw [hsps] at hnd
    rw [speakerFold_disjoint (s :: ss) [] hnd (by simp)]
    simp only [List.nil_append, load_mind, storeGet]
    rw [assocGet_assocSet]
    have hkey : List.map loadSpeaker (stableSortBy (fun a b => strLe a.1 b.1)
          ((s :: ss).map fun sp => (slugify sp.name, speakerFilesOf sp {})))
        = (stableSortBy
            (fun a b : Speaker => strLe (slugify a.name) (slugify b.name))
            (s :: ss)).map
          (fun sp => { name := titleCase (dashToSpace (slugify sp.name))
                       passages := sp.passages
                       soul := .raw (soulMd sp) : Speaker }) := by
      rw [stableSortBy_map
        (fun a b : Speaker => strLe (slugify a.name) (slugify b.name))
        (fun a b : String × SpeakerFiles => strLe a.1 b.1)
        (fun sp => (slugify sp.name, speakerFilesOf sp {}))
        (fun a b => rfl) (s :: ss), List.map_map]
      rfl
    exact congrArg (fun l : List Speaker =>
      (Except.ok (some
        ({ name := mind.name
           created := mind.created
           source_file := mind.source_file
           themes := mind.themes
           tensions := mind.tensions
           raw_transcript := mind.raw_transcript
           clean_transcript := mind.clean_transcript
           speakers := l } : ConferenceMind))
        : Except Unit (Option ConferenceMind))) hkey

def cexMind2w : ConferenceMind :=
  { name := "W",
    speakers := [{ name := "Bob", passages := [⟨"Bob", "hi", 0, "", []⟩] }] }

/-- C2 witness: the amended round trip at a concrete fresh store and
one-speaker mind. -/
theorem C2_witness :
    storeGet ([] : Store) (slugify cexMind2w.name) = none ∧
    ((cexMind2w.speakers.map fun s => slugify s.name).Nodup) ∧
    load_mind (save_mind [] cexMind2w) cexMind2w.name
      = .ok (some
        { name := cexMind2w.name
          created := cexMind2w.created
          source_file := cexMind2w.source_file
          themes := cexMind2w.themes
          tensions := cexMind2w.tensions
          raw_transcript := cexMind2w.raw_transcript
          clean_transcript := cexMind2w.clean_transcript
          speakers := (stableSortBy
              (fun a b => strLe (slugify a.name) (slugify b.name))
              cexMind2w.speakers).map fun sp =>
            { name := titleCase (dashToSpace (slugify sp.name))
              passages := sp.passages
              soul := .raw (soulMd sp) } }) :=
  ⟨by decide, by decide, C2_roundtrip [] cexMind2w (by decide) (by decide)⟩
